import Mathlib

/-!
# spglib 0.7.1: the C interface (`spglib.c`) and the primitive-cell extractor (`primitive.c`)

A shallow embedding of the functions of `src/spglib.c` and `src/primitive.c`.

Conventions of the embedding.

* A C array reached through a pointer (`double position[][3]`, `int types[]`,
  `char symbol[21]`, the arrays inside `Cell` and `Symmetry`) is a function from
  the index to the element, `Arr α`.  A write is `Arr.set`.  The C code carries
  no bounds, and neither does the embedding.
* `double` is modelled by the rationals with exact arithmetic.
* `int` is modelled by `Int`.  Loop counters run over `Nat`.  The product by 48
  in `spg_get_max_multiplicity` is reduced to the 32-bit range (`wrap_int`).
* `int / int` is C division (truncation toward zero, `Int.tdiv`); a division by
  zero aborts the computation, which is why `trim_cell` and its callers return
  an `Option`.
* What is written to `stderr` is part of the result, as a list of strings.
  `debug_print` is empty unless the library is built with `DEBUG` and is left out.
* The files `cell.c`, `mathfunc.c`, `symmetry.c`, `bravais.c` and
  `spacegroup.c` are not among the sources at hand.  Elementary helpers
  (`mat_*`, `cel_*`) are modelled from the specification; the deep ones
  (`sym_get_operation`, `tbl_get_spacegroup`, ...) are fields of `Deps`, and the
  theorems hold for every value of them.
-/

namespace Spglib

/-! ## Data model -/

/-- A 3-vector, `T v[3]`. -/
abbrev Vec3 (α : Type) := Fin 3 → α

/-- A 3×3 matrix, `T m[3][3]`, indexed row first. -/
abbrev Mat3 (α : Type) := Fin 3 → Fin 3 → α

/-- A C array reached through a pointer: index to element. -/
abbrev Arr (α : Type) := Nat → α

/-- The assignment `a[i] = v`. -/
def Arr.set {α : Type} (a : Arr α) (i : Nat) (v : α) : Arr α :=
  fun n => if n = i then v else a n

/-- The loop `for (i = 0; i < n; i++) body`, acting on the state `s`. -/
def forLoop {σ : Type} (n : Int) (body : Nat → σ → σ) (s : σ) : σ :=
  (List.range n.toNat).foldl (fun st i => body i st) s

/-- Modelled from the spec: the type `Cell` of `cell.h` (missing from the sources),
"Ordered triple (L, P, T)" with its atom count, as the fields used by the code:
`size`, `lattice`, `position`, `types`. -/
structure Cell where
  size : Int
  lattice : Mat3 ℚ
  position : Arr (Vec3 ℚ)
  types : Arr Int

/-- Modelled from the spec: the type `Symmetry` of `symmetry.h` (missing from the
sources), as the fields used by `spg_get_symmetry`: `size`, `rot`, `trans`. -/
structure Symmetry where
  size : Int
  rot : Arr (Mat3 Int)
  trans : Arr (Vec3 ℚ)

/-- Modelled from the spec: the seven crystal systems of a Bravais record. -/
inductive Holohedry where
  | triclinic | monoclinic | orthorhombic | tetragonal | rhombohedral | hexagonal | cubic
  deriving DecidableEq, Repr

/-- Modelled from the spec: the centering of a Bravais record. -/
inductive Centering where
  | P | A | B | C | I | F | R
  deriving DecidableEq, Repr

/-- Modelled from the spec: the type `Bravais` of `bravais.h` (missing from the
sources), "A pair (L_conv, kind)" with kind a crystal system and a centering. -/
structure Bravais where
  holohedry : Holohedry
  centering : Centering
  lattice : Mat3 ℚ

/-- Modelled from the spec: the point-group part of a space-group record
(`pointgroup.h` is missing from the sources); C strings are the characters
before the terminating NUL. -/
structure Pointgroup where
  international : List Char
  schoenflies : List Char

/-- Modelled from the spec: the type `Spacegroup` of `spacegroup.h` (missing from
the sources), with the fields read by `spglib.c`.  A `char[]` field is the list
of the characters stored in it; the C string it denotes ends before the first
NUL (`cstr`). -/
structure Spacegroup where
  number : Int
  international_long : List Char
  international : List Char
  schoenflies : List Char
  bravais_symbol : List Char
  multi : Int
  pointgroup : Pointgroup

/-- The functions of the library that the embedded code calls and whose source
is not at hand.  `garbage` is the content of freshly allocated storage. -/
structure Deps where
  garbage : Cell
  mat_Nint : ℚ → Int
  mat_inverse_matrix_d3 : Mat3 ℚ → ℚ → Mat3 ℚ
  brv_get_brv_lattice : Mat3 ℚ → ℚ → Bravais
  brv_smallest_lattice_vector : Mat3 ℚ → ℚ → Mat3 ℚ
  sym_get_operation : Bravais → Cell → ℚ → Symmetry
  sym_get_multiplicity : Cell → ℚ → Int
  sym_get_pure_translation : Cell → ℚ → Int × Arr (Vec3 ℚ)
  tbl_get_spacegroup : Cell → ℚ → Spacegroup

/-! ## Helpers modelled from the specification -/

/-- Modelled from the spec: `cel_new_cell` of `cell.c` (missing), "Constructor
takes a size N and allocates positions and types"; the storage is not
initialised. -/
def cel_new_cell (E : Deps) (size : Int) : Cell :=
  { E.garbage with size := size }

/-- Modelled from the spec: `cel_set_cell` of `cell.c` (missing), "A setter stores
a lattice and copies positions and types", the first `size` of each. -/
def cel_set_cell (cell : Cell) (lattice : Mat3 ℚ) (position : Arr (Vec3 ℚ))
    (types : Arr Int) : Cell :=
  { size := cell.size
    lattice := lattice
    position := fun i => if (i : Int) < cell.size then position i else cell.position i
    types := fun i => if (i : Int) < cell.size then types i else cell.types i }

/-- Modelled from the spec: `mat_Dabs` of `mathfunc.c` (missing), "absolute value". -/
def mat_Dabs (a : ℚ) : ℚ := if a < 0 then -a else a

/-- Modelled from the spec: `mat_get_determinant_d3` of `mathfunc.c` (missing),
"determinant" of a 3×3 real matrix. -/
def mat_get_determinant_d3 (a : Mat3 ℚ) : ℚ :=
  a 0 0 * (a 1 1 * a 2 2 - a 1 2 * a 2 1)
  + a 0 1 * (a 1 2 * a 2 0 - a 1 0 * a 2 2)
  + a 0 2 * (a 1 0 * a 2 1 - a 1 1 * a 2 0)

/-- Modelled from the spec: `mat_multiply_matrix_d3` of `mathfunc.c` (missing),
"3×3 real matrix multiply". -/
def mat_multiply_matrix_d3 (a b : Mat3 ℚ) : Mat3 ℚ :=
  fun i j => a i 0 * b 0 j + a i 1 * b 1 j + a i 2 * b 2 j

/-- Modelled from the spec: `mat_multiply_matrix_vector_d3` of `mathfunc.c`
(missing), "matrix-vector multiply". -/
def mat_multiply_matrix_vector_d3 (a : Mat3 ℚ) (v : Vec3 ℚ) : Vec3 ℚ :=
  fun i => a i 0 * v 0 + a i 1 * v 1 + a i 2 * v 2

/-- The value of a 32-bit `int` holding the mathematical result `x`. -/
def wrap_int (x : Int) : Int := (x + 2147483648) % 4294967296 - 2147483648

/-! ## `spglib.c`: symmetry operations and multiplicities -/

/-- What `spg_get_symmetry` leaves behind: its return value, the two output
arrays, and the text sent to `stderr`. -/
structure SymmetryResult where
  ret : Int
  rotation : Arr (Mat3 Int)
  translation : Arr (Vec3 ℚ)
  stderr : List String

/-- The function `spg_get_symmetry` of `spglib.c`. -/
def spg_get_symmetry (E : Deps) (rotation : Arr (Mat3 Int)) (translation : Arr (Vec3 ℚ))
    (max_size : Int) (lattice : Mat3 ℚ) (position : Arr (Vec3 ℚ)) (types : Arr Int)
    (num_atom : Int) (symprec : ℚ) : SymmetryResult :=
  let cell := cel_set_cell (cel_new_cell E num_atom) lattice position types
  let bravais := E.brv_get_brv_lattice cell.lattice symprec
  let symmetry := E.sym_get_operation bravais cell symprec
  if symmetry.size > max_size then
    { ret := 0
      rotation := rotation
      translation := translation
      stderr :=
        ["spglib: Indicated max size(=" ++ toString max_size ++ ") is less than number ",
         "spglib: of symmetry operations(=" ++ toString symmetry.size ++ ").\n"] }
  else
    let out := forLoop symmetry.size
      (fun i (st : Arr (Mat3 Int) × Arr (Vec3 ℚ)) =>
        (st.1.set i (symmetry.rot i), st.2.set i (fun j => symmetry.trans i j)))
      (rotation, translation)
    { ret := symmetry.size
      rotation := out.1
      translation := out.2
      stderr := [] }

/-- The function `spg_get_multiplicity` of `spglib.c`. -/
def spg_get_multiplicity (E : Deps) (lattice : Mat3 ℚ) (position : Arr (Vec3 ℚ))
    (types : Arr Int) (num_atom : Int) (symprec : ℚ) : Int :=
  let cell := cel_set_cell (cel_new_cell E num_atom) lattice position types
  let bravais := E.brv_get_brv_lattice cell.lattice symprec
  let symmetry := E.sym_get_operation bravais cell symprec
  symmetry.size

/-- The function `spg_get_max_multiplicity` of `spglib.c`. -/
def spg_get_max_multiplicity (E : Deps) (lattice : Mat3 ℚ) (position : Arr (Vec3 ℚ))
    (types : Arr Int) (num_atom : Int) (symprec : ℚ) : Int :=
  let cell := cel_set_cell (cel_new_cell E num_atom) lattice position types
  wrap_int (E.sym_get_multiplicity cell symprec * 48)

/-! ## `primitive.c` -/

/-- The function `is_overlap` of `primitive.c`. -/
def is_overlap (a b : Vec3 ℚ) (symprec : ℚ) : Int :=
  if (mat_Dabs (a 0 - b 0) < symprec ∨ mat_Dabs (mat_Dabs (a 0 - b 0) - 1) < symprec) ∧
     (mat_Dabs (a 1 - b 1) < symprec ∨ mat_Dabs (mat_Dabs (a 1 - b 1) - 1) < symprec) ∧
     (mat_Dabs (a 2 - b 2) < symprec ∨ mat_Dabs (mat_Dabs (a 2 - b 2) - 1) < symprec) then 1
  else 0

/-- The index triples visited by the three nested loops of `get_least_axes`,
`i < j < k < n`, in the order the loops visit them. -/
def axis_triples (n : Nat) : List (Nat × Nat × Nat) :=
  (List.range n).flatMap fun i =>
    ((List.range n).filter fun j => i < j).flatMap fun j =>
      ((List.range n).filter fun k => j < k).map fun k => (i, j, k)

/-- The body of the innermost loop of `get_least_axes`: the test that makes it
return 1 at the triple `t`.  (With `symprec ≥ 0` the divisor is not zero.) -/
def axes_accepted (E : Deps) (vectors : Arr (Vec3 ℚ)) (multi : Int) (cell : Cell)
    (symprec : ℚ) (t : Nat × Nat × Nat) : Bool :=
  let initial_volume := mat_Dabs (mat_get_determinant_d3 cell.lattice)
  let tmp_lattice : Mat3 ℚ := fun r =>
    if r = 0 then mat_multiply_matrix_vector_d3 cell.lattice (vectors t.1)
    else if r = 1 then mat_multiply_matrix_vector_d3 cell.lattice (vectors t.2.1)
    else mat_multiply_matrix_vector_d3 cell.lattice (vectors t.2.2)
  let volume := mat_Dabs (mat_get_determinant_d3 tmp_lattice)
  decide (mat_Dabs volume > symprec) && decide (E.mat_Nint (initial_volume / volume) = multi)

/-- The function `get_least_axes` of `primitive.c`: its return value and the
array `vectors` after the call. -/
def get_least_axes (E : Deps) (vectors : Arr (Vec3 ℚ)) (multi : Int) (cell : Cell)
    (symprec : ℚ) : Int × Arr (Vec3 ℚ) :=
  match (axis_triples (multi + 2).toNat).find? (axes_accepted E vectors multi cell symprec) with
  | some t =>
    let min_vectors0 := vectors t.1
    let min_vectors1 := vectors t.2.1
    let min_vectors2 := vectors t.2.2
    (1, ((vectors.set 0 min_vectors0).set 1 min_vectors1).set 2 min_vectors2)
  | none => (0, vectors)

/-- The local array `position` of `trim_cell`: the atoms in the axes of the
primitive lattice, reduced by `mat_Nint`. -/
def reduced_position (E : Deps) (axis_inv : Mat3 ℚ) (cell : Cell) : Arr (Vec3 ℚ) :=
  fun i j =>
    let p := mat_multiply_matrix_vector_d3 axis_inv (cell.position i)
    p j - (E.mat_Nint (p j) : ℚ)

/-- Row `i` of the overlap table of `trim_cell` up to `count`: the atoms `j`
that overlap atom `i`, in increasing order. -/
def overlap_row (position : Arr (Vec3 ℚ)) (size : Int) (tol : ℚ) (i : Nat) : List Nat :=
  (List.range size.toNat).filter fun j => is_overlap (position i) (position j) tol ≠ 0

/-- The entry `table[i][c]` of `trim_cell`; the table is first filled with zeros. -/
def table_entry (position : Arr (Vec3 ℚ)) (size : Int) (tol : ℚ) (i c : Nat) : Nat :=
  (overlap_row position size tol i).getD c 0

/-- The text sent to `stderr` by the loop of `trim_cell` that fills the table. -/
def overlap_diagnostics (position : Arr (Vec3 ℚ)) (size : Int) (tol : ℚ) (ratio : Int) :
    List String :=
  (List.range size.toNat).flatMap fun i =>
    if ((overlap_row position size tol i).length : Int) ≠ ratio then
      ["Bug: Number of overlap atoms in primitive cell is not\n",
       "     same as the multiplication.\n"]
    else []

/-- The variables changed by the copying loop of `trim_cell`. -/
structure TrimState where
  position : Arr (Vec3 ℚ)
  types : Arr Int
  check_table : Arr Int
  count : Nat

/-- The term added to `primitive->position[count][k]` for the member `tj` of the
class opened by `t0` (the "boundary treatment"). -/
def boundary_term (position : Arr (Vec3 ℚ)) (t0 tj : Nat) (k : Fin 3) : ℚ :=
  if mat_Dabs (position t0 k - position tj k) > 1 / 2 then
    if position tj k < 0 then position tj k + 1 else position tj k - 1
  else position tj k

/-- One pass of the copying loop of `trim_cell`, for atom `i`. -/
def trim_atom (E : Deps) (cell : Cell) (position : Arr (Vec3 ℚ)) (tol symprec : ℚ)
    (ratio : Int) (i : Nat) (st : TrimState) : TrimState :=
  if st.check_table i = 0 then
    let st1 : TrimState :=
      { st with types := st.types.set st.count (cell.types i)
                position := st.position.set st.count (fun _ => 0) }
    let st2 := forLoop ratio
      (fun j (s : TrimState) =>
        { s with
          position := s.position.set s.count (fun k =>
            s.position s.count k +
              boundary_term position (table_entry position cell.size tol i 0)
                (table_entry position cell.size tol i j) k)
          check_table := s.check_table.set (table_entry position cell.size tol i j) 1 })
      st1
    let averaged : Vec3 ℚ := fun j =>
      let a := st2.position st2.count j / (ratio : ℚ)
      a - (E.mat_Nint (a - symprec) : ℚ)
    { st2 with position := st2.position.set st2.count averaged, count := st2.count + 1 }
  else st

/-- The function `trim_cell` of `primitive.c`: the primitive cell after the call
and the text sent to `stderr`; `none` when `cell->size / primitive->size`
divides by zero. -/
def trim_cell (E : Deps) (primitive cell : Cell) (symprec : ℚ) :
    Option (Cell × List String) :=
  if primitive.size = 0 then none
  else
    let ratio := cell.size.tdiv primitive.size
    let tmp_matrix := E.mat_inverse_matrix_d3 primitive.lattice symprec
    let axis_inv := mat_multiply_matrix_d3 tmp_matrix cell.lattice
    let position := reduced_position E axis_inv cell
    let tol := symprec * (ratio : ℚ)
    let st := forLoop cell.size (trim_atom E cell position tol symprec ratio)
      { position := primitive.position, types := primitive.types,
        check_table := fun _ => 0, count := 0 }
    some ({ primitive with position := st.position, types := st.types },
      overlap_diagnostics position cell.size tol ratio ++
        (if (st.count : Int) ≠ primitive.size then
          ["Bug: Primitive cell could not be found.\n"] else []))

/-- The two loops at the head of `get_primitive` that fill the local array
`vectors` (not initialised before). -/
def get_primitive_vectors (E : Deps) (pure_trans : Arr (Vec3 ℚ)) (multi : Int) :
    Arr (Vec3 ℚ) :=
  let vectors := forLoop (multi - 1)
    (fun i (v : Arr (Vec3 ℚ)) => v.set i (pure_trans (i + 1))) E.garbage.position
  forLoop 3
    (fun i (v : Arr (Vec3 ℚ)) =>
      v.set ((i : Int) + multi - 1).toNat (fun j => if i = j.val then 1 else 0))
    vectors

/-- The function `get_primitive` of `primitive.c`: its return value, the cell
`primitive` after the call and the text sent to `stderr`. -/
def get_primitive (E : Deps) (primitive cell : Cell) (pure_trans : Arr (Vec3 ℚ))
    (multi : Int) (symprec : ℚ) : Option (Int × Cell × List String) :=
  let vectors := get_primitive_vectors E pure_trans multi
  let found := get_least_axes E vectors multi cell symprec
  if found.1 = 0 then some (0, primitive, [])
  else
    let vectors := found.2
    let relative_lattice : Mat3 ℚ := fun j i => vectors i.val j
    let prim_lattice := mat_multiply_matrix_d3 cell.lattice relative_lattice
    let primitive :=
      { primitive with lattice := E.brv_smallest_lattice_vector prim_lattice symprec }
    match trim_cell E primitive cell symprec with
    | none => none
    | some (trimmed, err) => some (1, trimmed, err)

/-- The function `prm_get_primitive` of `primitive.c`: the returned cell and the
text sent to `stderr`. -/
def prm_get_primitive (E : Deps) (cell : Cell) (symprec : ℚ) : Option (Cell × List String) :=
  let multi := (E.sym_get_pure_translation cell symprec).1
  let pure_trans := (E.sym_get_pure_translation cell symprec).2
  if multi > 1 then
    let primitive := cel_new_cell E (cell.size.tdiv multi)
    match get_primitive E primitive cell pure_trans multi symprec with
    | none => none
    | some (found, primitive, err) =>
      if found ≠ 0 then some (primitive, err)
      else some (cel_new_cell E 0, err)
  else some (cel_new_cell E 0, [])

/-! ## `spglib.c`: primitive cell and space-group symbols -/

/-- What `spg_find_primitive` leaves behind: its return value, the three arrays
it may overwrite, and the text sent to `stderr`. -/
structure PrimitiveResult where
  ret : Int
  lattice : Mat3 ℚ
  position : Arr (Vec3 ℚ)
  types : Arr Int
  stderr : List String

/-- The function `spg_find_primitive` of `spglib.c`. -/
def spg_find_primitive (E : Deps) (lattice : Mat3 ℚ) (position : Arr (Vec3 ℚ))
    (types : Arr Int) (num_atom : Int) (symprec : ℚ) : Option PrimitiveResult :=
  let cell := cel_set_cell (cel_new_cell E num_atom) lattice position types
  if E.sym_get_multiplicity cell symprec > 1 then
    match prm_get_primitive E cell symprec with
    | none => none
    | some (primitive, err) =>
      let num_prim_atom := primitive.size
      if num_prim_atom > 0 then
        let out := forLoop primitive.size
          (fun i (st : Arr Int × Arr (Vec3 ℚ)) =>
            (st.1.set i (primitive.types i), st.2.set i (fun j => primitive.position i j)))
          (types, position)
        some { ret := num_prim_atom, lattice := primitive.lattice, position := out.2,
               types := out.1, stderr := err }
      else
        some { ret := num_prim_atom, lattice := lattice, position := position,
               types := types, stderr := err }
  else
    some { ret := 0, lattice := lattice, position := position, types := types, stderr := [] }

/-- The terminating character of a C string. -/
def NUL : Char := Char.ofNat 0

/-- The C string held by a `char[]` field: the characters before the first NUL. -/
def cstr (s : List Char) : List Char := s.takeWhile fun c => c ≠ NUL

/-- The library call `strcpy(&dst[off], src)`: the characters of `src` are stored
one by one from `dst[off]` on, up to and including the terminating NUL. -/
def strcpy (dst : Arr Char) (off : Nat) : List Char → Arr Char
  | [] => dst.set off NUL
  | c :: cs => if c = NUL then dst.set off NUL else strcpy (dst.set off c) (off + 1) cs

/-- The C string that starts at `buf[off]`, read over at most `fuel` characters. -/
def read_cstr (buf : Arr Char) (off : Nat) : Nat → List Char
  | 0 => []
  | fuel + 1 => if buf off = NUL then [] else buf off :: read_cstr buf (off + 1) fuel

/-- What a symbol query leaves behind: its return value and the symbol buffer. -/
structure SymbolResult where
  ret : Int
  symbol : Arr Char

/-- The function `spg_get_international` of `spglib.c`. -/
def spg_get_international (E : Deps) (symbol : Arr Char) (lattice : Mat3 ℚ)
    (position : Arr (Vec3 ℚ)) (types : Arr Int) (num_atom : Int) (symprec : ℚ) :
    SymbolResult :=
  let cell := cel_set_cell (cel_new_cell E num_atom) lattice position types
  let spacegroup := E.tbl_get_spacegroup cell symprec
  if spacegroup.number > 0 then
    let symbol := strcpy symbol 0 spacegroup.bravais_symbol
    let symbol := strcpy symbol 1 spacegroup.international
    { ret := spacegroup.number, symbol := symbol }
  else
    { ret := spacegroup.number, symbol := symbol }

/-- The function `spg_get_schoenflies` of `spglib.c`. -/
def spg_get_schoenflies (E : Deps) (symbol : Arr Char) (lattice : Mat3 ℚ)
    (position : Arr (Vec3 ℚ)) (types : Arr Int) (num_atom : Int) (symprec : ℚ) :
    SymbolResult :=
  let cell := cel_set_cell (cel_new_cell E num_atom) lattice position types
  let spacegroup := E.tbl_get_spacegroup cell symprec
  if spacegroup.number > 0 then
    { ret := spacegroup.number, symbol := strcpy symbol 0 spacegroup.schoenflies }
  else
    { ret := spacegroup.number, symbol := symbol }

/-! ## The symmetry finder, from the specification

`symmetry.c` is not among the sources.  The two functions of it whose results
`spg_get_multiplicity` and `spg_get_max_multiplicity` return are modelled here
from section 4.4 of the specification. -/

/-- Modelled from the spec: the inputs of the symmetry finder that section 4.4
leaves to tables and searches, `symmetry.c` being missing.  `rotations` are the
"Candidate rotations ... of the Bravais point group (48 in cubic, fewer
otherwise)"; `pure_translations` is the accepted set of the "Pure-translation
search"; `overall_translation` answers "If all atoms match under some overall
translation t = t_p + δ" with that `t`. -/
structure SymmetryModel where
  rotations : Bravais → List (Mat3 Int)
  rotations_le : ∀ b, (rotations b).length ≤ 48
  pure_translations : Cell → ℚ → List (Vec3 ℚ)
  overall_translation : Cell → ℚ → Mat3 Int → Vec3 ℚ → Option (Vec3 ℚ)

/-- Modelled from the spec: `frac_equal` of the math kernel (`mathfunc.c` is
missing), "treats values differing by an integer as equal (periodicity)". -/
def spec_frac_equal (a b ε : ℚ) : Bool :=
  decide (|(a - b) - (round (a - b) : ℚ)| < ε)

/-- Modelled from the spec: equality of two operations for "Deduplicate by
(R, t mod 1) at tolerance ε" (`symmetry.c` is missing). -/
def spec_same_operation (ε : ℚ) (o1 o2 : Mat3 Int × Vec3 ℚ) : Bool :=
  decide (o1.1 = o2.1) && spec_frac_equal (o1.2 0) (o2.2 0) ε &&
    spec_frac_equal (o1.2 1) (o2.2 1) ε && spec_frac_equal (o1.2 2) (o2.2 2) ε

/-- Modelled from the spec: "Deduplicate" of section 4.4 (`symmetry.c` is
missing): an element is kept unless an element kept before equals it. -/
def spec_dedup {α : Type} (same : α → α → Bool) (l : List α) : List α :=
  l.foldl (fun kept x => if kept.any (fun y => same y x) then kept else kept ++ [x]) []

/-- Modelled from the spec: the operations of section 4.4, step 3
(`symmetry.c` is missing): "For each candidate rotation R and each pure
translation t_p ... If all atoms match under some overall translation
t = t_p + δ, emit (R, t). Deduplicate by (R, t mod 1) at tolerance ε." -/
def spec_operations (M : SymmetryModel) (bravais : Bravais) (cell : Cell) (symprec : ℚ) :
    List (Mat3 Int × Vec3 ℚ) :=
  spec_dedup (spec_same_operation symprec)
    ((M.rotations bravais).flatMap fun R =>
      (M.pure_translations cell symprec).filterMap fun tp =>
        (M.overall_translation cell symprec R tp).map fun t => (R, t))

/-- Modelled from the spec: `sym_get_operation` of `symmetry.c` (missing), the
symmetry finder of section 4.4 returning its operations as a `Symmetry`. -/
def spec_sym_get_operation (M : SymmetryModel) (bravais : Bravais) (cell : Cell)
    (symprec : ℚ) : Symmetry :=
  let ops := spec_operations M bravais cell symprec
  { size := ops.length
    rot := fun i => (ops.getD i (fun _ _ => 0, fun _ => 0)).1
    trans := fun i => (ops.getD i (fun _ _ => 0, fun _ => 0)).2 }

/-- Modelled from the spec: `sym_get_multiplicity` of `symmetry.c` (missing), the
"multiplicity of pure translations": the number of accepted pure translations. -/
def spec_sym_get_multiplicity (M : SymmetryModel) (cell : Cell) (symprec : ℚ) : Int :=
  (M.pure_translations cell symprec).length

/-- The missing functions `E` with the symmetry finder of the specification in
the place of `sym_get_operation` and `sym_get_multiplicity`. -/
def spec_deps (M : SymmetryModel) (E : Deps) : Deps :=
  { E with sym_get_operation := spec_sym_get_operation M
           sym_get_multiplicity := spec_sym_get_multiplicity M }

/-! ## Scenario S2: the body-centred cubic cell -/

/-- Rounding to the nearest integer, halves away from zero. -/
def nint_half_away (a : ℚ) : Int :=
  if a < 0 then -Rat.floor (-a + 1 / 2) else Rat.floor (a + 1 / 2)

/-- The inverse of a 3×3 matrix by cofactors (the zero matrix when singular). -/
def inverse_by_cofactors (a : Mat3 ℚ) (_symprec : ℚ) : Mat3 ℚ :=
  let d := mat_get_determinant_d3 a
  fun i j => (a (j + 1) (i + 1) * a (j + 2) (i + 2) - a (j + 1) (i + 2) * a (j + 2) (i + 1)) / d

/-- Identity rotation. -/
def identity_i3 : Mat3 Int := fun i j => if i = j then 1 else 0

/-- The lattice of scenario S2, the identity scaled by `a = 3`. -/
def bcc_lattice : Mat3 ℚ := fun i j => if i = j then 3 else 0

/-- The positions of scenario S2: `(0,0,0)` and `(1/2,1/2,1/2)`. -/
def bcc_position : Arr (Vec3 ℚ) := fun i _ => if i = 1 then 1 / 2 else 0

/-- The species of scenario S2: both atoms of species 1. -/
def bcc_types : Arr Int := fun _ => 1

/-- The space-group record of scenario S2: number 229, "Im-3m". -/
def bcc_spacegroup : Spacegroup :=
  { number := 229
    international_long := "m-3m".toList
    international := "m-3m".toList
    schoenflies := "Oh^9".toList
    bravais_symbol := "I".toList
    multi := 96
    pointgroup := { international := "m-3m".toList, schoenflies := "Oh".toList } }

/-- Values of the missing functions on the cell of scenario S2: two pure
translations, `(0,0,0)` and `(1/2,1/2,1/2)`; the operations reported are the
identity rotation with each of them; lattice reduction leaves the lattice as it
is; fresh storage holds zeros. -/
def bcc_deps : Deps :=
  { garbage := { size := 0, lattice := fun _ _ => 0, position := fun _ _ => 0, types := fun _ => 0 }
    mat_Nint := nint_half_away
    mat_inverse_matrix_d3 := inverse_by_cofactors
    brv_get_brv_lattice := fun l _ => { holohedry := .cubic, centering := .I, lattice := l }
    brv_smallest_lattice_vector := fun l _ => l
    sym_get_operation := fun _ _ _ =>
      { size := 2, rot := fun _ => identity_i3, trans := bcc_position }
    sym_get_multiplicity := fun _ _ => 2
    sym_get_pure_translation := fun _ _ => (2, bcc_position)
    tbl_get_spacegroup := fun _ _ => bcc_spacegroup }

/-- A symmetry model for scenario S2: the identity as the only candidate
rotation, the two pure translations, and every pair accepted as it stands. -/
def bcc_model : SymmetryModel :=
  { rotations := fun _ => [identity_i3]
    rotations_le := fun _ => by simp
    pure_translations := fun _ _ => [bcc_position 0, bcc_position 1]
    overall_translation := fun _ _ _ tp => some tp }

/-! ## Scenario S1 and two failing variants of scenario S2 -/

/-- Values of the missing functions on the primitive cubic cell of scenario S1:
the identity is the only pure translation. -/
def sc_deps : Deps :=
  { bcc_deps with
    sym_get_operation := fun _ _ _ =>
      { size := 1, rot := fun _ => identity_i3, trans := fun _ _ => 0 }
    sym_get_multiplicity := fun _ _ => 1
    sym_get_pure_translation := fun _ _ => (1, fun _ _ => 0) }

/-- The lattice of scenario S1, the identity scaled by `a = 4`. -/
def sc_lattice : Mat3 ℚ := fun i j => if i = j then 4 else 0

/-- The position of scenario S1: one atom at the origin. -/
def sc_position : Arr (Vec3 ℚ) := fun _ _ => 0

/-- Scenario S2 with a rounding that never yields the multiplicity, so that
`get_least_axes` accepts no triple. -/
def no_axes_deps : Deps :=
  { bcc_deps with mat_Nint := fun _ => 0 }

/-- Scenario S2 with a classifier that fails: number 0 and empty symbols. -/
def unclassified_deps : Deps :=
  { bcc_deps with
    tbl_get_spacegroup := fun _ _ =>
      { number := 0, international_long := [], international := [], schoenflies := [],
        bravais_symbol := [], multi := 0,
        pointgroup := { international := [], schoenflies := [] } } }

/-- The candidate vectors that `get_primitive` hands to `get_least_axes` for
`cell`. -/
def candidate_vectors (E : Deps) (cell : Cell) (symprec : ℚ) : Arr (Vec3 ℚ) :=
  get_primitive_vectors E (E.sym_get_pure_translation cell symprec).2
    (E.sym_get_pure_translation cell symprec).1

/-- The lattice that `get_primitive` stores in the primitive cell once
`get_least_axes` has left the chosen axes in `vectors[0..2]`: the input lattice
times the axes, reduced by `brv_smallest_lattice_vector`. -/
def primitive_lattice (E : Deps) (cell : Cell) (symprec : ℚ) : Mat3 ℚ :=
  E.brv_smallest_lattice_vector
    (mat_multiply_matrix_d3 cell.lattice
      (fun j i => (get_least_axes E (candidate_vectors E cell symprec)
        (E.sym_get_pure_translation cell symprec).1 cell symprec).2 i.val j))
    symprec

/-! ## Names for the statements -/

/-- The cell built at the head of every function of `spglib.c`:
`cell = cel_new_cell(num_atom); cel_set_cell(&cell, lattice, position, types)`. -/
def input_cell (E : Deps) (lattice : Mat3 ℚ) (position : Arr (Vec3 ℚ)) (types : Arr Int)
    (num_atom : Int) : Cell :=
  cel_set_cell (cel_new_cell E num_atom) lattice position types

/-- The set of operations that `sym_get_operation` returns inside
`spg_get_symmetry` and `spg_get_multiplicity`. -/
def found_operations (E : Deps) (lattice : Mat3 ℚ) (position : Arr (Vec3 ℚ)) (types : Arr Int)
    (num_atom : Int) (symprec : ℚ) : Symmetry :=
  E.sym_get_operation (E.brv_get_brv_lattice (input_cell E lattice position types num_atom).lattice
    symprec) (input_cell E lattice position types num_atom) symprec

/-- The rotation buffer used in the examples: every entry the zero matrix. -/
def zero_rotations : Arr (Mat3 Int) := fun _ _ _ => 0

/-- The translation buffer used in the examples: every entry the zero vector. -/
def zero_translations : Arr (Vec3 ℚ) := fun _ _ => 0

/-- The symbol buffer used in the examples: every character a blank. -/
def blank_symbol : Arr Char := fun _ => ' '

/-! ## Names for the statements on `get_least_axes` -/

/-- The lexicographic order on index triples. -/
def triple_lt (s t : Nat × Nat × Nat) : Prop :=
  s.1 < t.1 ∨ (s.1 = t.1 ∧ (s.2.1 < t.2.1 ∨ (s.2.1 = t.2.1 ∧ s.2.2 < t.2.2)))

/-- The volume that `get_least_axes` computes for the triple `t`: the absolute
determinant of the three candidate vectors taken to Cartesian coordinates. -/
def triple_volume (cell : Cell) (vectors : Arr (Vec3 ℚ)) (t : Nat × Nat × Nat) : ℚ :=
  mat_Dabs (mat_get_determinant_d3 (fun r =>
    if r = 0 then mat_multiply_matrix_vector_d3 cell.lattice (vectors t.1)
    else if r = 1 then mat_multiply_matrix_vector_d3 cell.lattice (vectors t.2.1)
    else mat_multiply_matrix_vector_d3 cell.lattice (vectors t.2.2)))

/-- A cubic lattice with `a = 10`. -/
def stretched_lattice : Mat3 ℚ := fun i j => if i = j then 10 else 0

/-- Two atoms of a doubled cell, the second displaced by `0.500001` along the
first axis: half a lattice vector up to `10⁻⁶`. -/
def near_half_position : Arr (Vec3 ℚ) :=
  fun i k => if i = 1 ∧ k = 0 then 500001 / 1000000 else 0

/-- Values of the missing functions on the cell `near_half_position`: the two
pure translations found at tolerance `10⁻⁵` are the origin and the displacement
`(0.500001, 0, 0)`. -/
def near_half_deps : Deps :=
  { bcc_deps with sym_get_pure_translation := fun _ _ => (2, near_half_position) }

/-- The cell of `near_half_position` in the lattice `stretched_lattice`. -/
def near_half_cell : Cell :=
  input_cell near_half_deps stretched_lattice near_half_position bcc_types 2

/-! ## Names for the statements on `trim_cell` and on the symbol buffer -/

/-- Two atoms on either side of the cell boundary: every reduced coordinate of
atom 0 is `-2/5`, every reduced coordinate of atom 1 is `9/20`. -/
def wrap_position : Arr (Vec3 ℚ) := fun i _ => if i = 0 then -2 / 5 else 9 / 20

/-- A vector with the three coordinates equal. -/
def diagonal_vector (x : ℚ) : Vec3 ℚ := fun _ => x

/-- The variable `ratio` of `trim_cell`. -/
def trim_ratio (primitive cell : Cell) : Int := cell.size.tdiv primitive.size

/-- The local array `position` of `trim_cell` for the cells `primitive` and
`cell`. -/
def trim_position (E : Deps) (primitive cell : Cell) (symprec : ℚ) : Arr (Vec3 ℚ) :=
  reduced_position E
    (mat_multiply_matrix_d3 (E.mat_inverse_matrix_d3 primitive.lattice symprec) cell.lattice) cell

/-- The tolerance `symprec * ratio` of the overlap test of `trim_cell`. -/
def trim_tol (primitive cell : Cell) (symprec : ℚ) : ℚ :=
  symprec * (trim_ratio primitive cell : ℚ)

/-- The state of the copying loop of `trim_cell` after its first `n` passes,
started in `st0`. -/
def trim_pass (E : Deps) (cell : Cell) (position : Arr (Vec3 ℚ)) (tol symprec : ℚ)
    (ratio : Int) (st0 : TrimState) (n : Nat) : TrimState :=
  forLoop (n : Int) (trim_atom E cell position tol symprec ratio) st0

/-- The state of the copying loop of `trim_cell E primitive cell symprec` after
its first `n` passes. -/
def trim_state (E : Deps) (primitive cell : Cell) (symprec : ℚ) (n : Nat) : TrimState :=
  trim_pass E cell (trim_position E primitive cell symprec) (trim_tol primitive cell symprec)
    symprec (trim_ratio primitive cell)
    { position := primitive.position, types := primitive.types,
      check_table := fun _ => 0, count := 0 } n

/-- The text that `trim_cell E primitive cell symprec` sends to `stderr`. -/
def trim_diagnostics (E : Deps) (primitive cell : Cell) (symprec : ℚ) : List String :=
  overlap_diagnostics (trim_position E primitive cell symprec) cell.size
      (trim_tol primitive cell symprec) (trim_ratio primitive cell) ++
    (if ((trim_state E primitive cell symprec cell.size.toNat).count : Int) ≠ primitive.size then
      ["Bug: Primitive cell could not be found.\n"] else [])

/-- The members of the class opened by atom `i`: `table[i][0..ratio-1]`. -/
def class_members (position : Arr (Vec3 ℚ)) (size : Int) (tol : ℚ) (ratio : Int) (i : Nat) :
    List Nat :=
  (List.range ratio.toNat).map (table_entry position size tol i)

/-- The average that `trim_cell` takes over the class opened by atom `i`, along
axis `k`: the sum of the members' coordinates after the boundary treatment,
divided by `ratio`. -/
def class_average (position : Arr (Vec3 ℚ)) (size : Int) (tol : ℚ) (ratio : Int) (i : Nat)
    (k : Fin 3) : ℚ :=
  ((List.range ratio.toNat).map fun j =>
    boundary_term position (table_entry position size tol i 0)
      (table_entry position size tol i j) k).sum / (ratio : ℚ)

/-- The position that `trim_cell` emits for the class opened by atom `i`: the
average, reduced by `mat_Nint`. -/
def class_position (E : Deps) (position : Arr (Vec3 ℚ)) (size : Int) (tol symprec : ℚ)
    (ratio : Int) (i : Nat) : Vec3 ℚ :=
  fun k => class_average position size tol ratio i k
    - (E.mat_Nint (class_average position size tol ratio i k - symprec) : ℚ)

/-- The atoms that are the lowest-index member of their own overlap row, in
increasing order. -/
def class_firsts (position : Arr (Vec3 ℚ)) (size : Int) (tol : ℚ) : List Nat :=
  (List.range size.toNat).filter fun i => (overlap_row position size tol i).head? = some i

/-- The cell `primitive` as `get_primitive` hands it to `trim_cell` inside
`prm_get_primitive`: fresh storage for `cell->size / multi` atoms with the
reduced primitive lattice. -/
def trimmed_input (E : Deps) (cell : Cell) (symprec : ℚ) : Cell :=
  { cel_new_cell E (cell.size.tdiv (E.sym_get_pure_translation cell symprec).1) with
    lattice := primitive_lattice E cell symprec }

/-- The species `1, 2, 2, ...`: atom 0 of species 1, the others of species 2. -/
def mixed_types : Arr Int := fun i => if i = 0 then 1 else 2

/-- The atoms that the first `n` passes of the copying loop find not yet
consumed, and for which they emit an atom, in increasing order. -/
def pass_openers (E : Deps) (cell : Cell) (position : Arr (Vec3 ℚ)) (tol symprec : ℚ)
    (ratio : Int) (st0 : TrimState) (n : Nat) : List Nat :=
  (List.range n).filter fun i =>
    (trim_pass E cell position tol symprec ratio st0 i).check_table i = 0

/-- The atoms that the copying loop of `trim_cell E primitive cell symprec` finds
not yet consumed, in increasing order: the atoms that open a class. -/
def trim_openers (E : Deps) (primitive cell : Cell) (symprec : ℚ) : List Nat :=
  (List.range cell.size.toNat).filter fun i =>
    (trim_state E primitive cell symprec i).check_table i = 0

/-- The cell of scenario S2 with two species: atom 0 of species 1, atom 1 of
species 2. -/
def mixed_cell : Cell := input_cell bcc_deps bcc_lattice bcc_position mixed_types 2

/-- The cell of scenario S2. -/
def bcc_cell : Cell := input_cell bcc_deps bcc_lattice bcc_position bcc_types 2

/-- The overlap test of `trim_cell` between the atoms `i` and `j`. -/
def overlaps (position : Arr (Vec3 ℚ)) (tol : ℚ) (i j : Nat) : Prop :=
  is_overlap (position i) (position j) tol ≠ 0

instance overlaps_decidable (position : Arr (Vec3 ℚ)) (tol : ℚ) (i j : Nat) :
    Decidable (overlaps position tol i j) :=
  inferInstanceAs (Decidable (is_overlap (position i) (position j) tol ≠ 0))

/-- The overlap test is an equivalence relation on the atoms `0 .. size - 1`, all
of whose classes (the rows of the overlap table) have exactly `m` members. -/
def overlap_classes (position : Arr (Vec3 ℚ)) (size : Int) (tol : ℚ) (m : Int) : Prop :=
  (∀ i, i < size.toNat → overlaps position tol i i) ∧
  (∀ i, i < size.toNat → ∀ j, j < size.toNat →
    overlaps position tol i j → overlaps position tol j i) ∧
  (∀ i, i < size.toNat → ∀ j, j < size.toNat → ∀ k, k < size.toNat →
    overlaps position tol i j → overlaps position tol j k → overlaps position tol i k) ∧
  (∀ i, i < size.toNat → ((overlap_row position size tol i).length : Int) = m)

instance overlap_classes_decidable (position : Arr (Vec3 ℚ)) (size : Int) (tol : ℚ) (m : Int) :
    Decidable (overlap_classes position size tol m) :=
  inferInstanceAs (Decidable (
    (∀ i, i < size.toNat → overlaps position tol i i) ∧
    (∀ i, i < size.toNat → ∀ j, j < size.toNat →
      overlaps position tol i j → overlaps position tol j i) ∧
    (∀ i, i < size.toNat → ∀ j, j < size.toNat → ∀ k, k < size.toNat →
      overlaps position tol i j → overlaps position tol j k → overlaps position tol i k) ∧
    (∀ i, i < size.toNat → ((overlap_row position size tol i).length : Int) = m)))

/-- The unit lattice. -/
def unit_lattice : Mat3 ℚ := fun i j => if i = j then 1 else 0

/-- A cell of two atoms of one species on either side of the cell boundary, at
`-2/5` and `9/20` on every axis, in the unit lattice. -/
def wrap_cell : Cell :=
  { size := 2, lattice := unit_lattice, position := wrap_position, types := bcc_types }

/-- A primitive cell of one atom in the unit lattice, as allocated for
`wrap_cell`. -/
def wrap_primitive : Cell :=
  { size := 1, lattice := unit_lattice, position := fun _ _ => 0, types := fun _ => 0 }

/-! ## Lemmas on loops and arrays -/

theorem forLoop_succ {σ : Type} (n : Nat) (body : Nat → σ → σ) (s : σ) :
    forLoop ((n + 1 : Nat) : Int) body s = body n (forLoop (n : Int) body s) := by
  simp [forLoop, List.range_succ, List.foldl_append]

theorem forLoop_nonpos {σ : Type} (n : Int) (hn : n ≤ 0) (body : Nat → σ → σ) (s : σ) :
    forLoop n body s = s := by
  simp [forLoop, Int.toNat_of_nonpos hn]

/-- A loop that stores `f i` and `g i` at index `i` of two arrays fills exactly
the first `n` entries of each. -/
theorem forLoop_set_pair {α β : Type} (f : Nat → α) (g : Nat → β) (a : Arr α) (b : Arr β)
    (n : Nat) :
    forLoop (n : Int) (fun i (st : Arr α × Arr β) => (st.1.set i (f i), st.2.set i (g i))) (a, b)
      = (fun k => if k < n then f k else a k, fun k => if k < n then g k else b k) := by
  induction n with
  | zero => simp [forLoop]
  | succ n ih =>
    rw [forLoop_succ, ih]
    refine Prod.ext ?_ ?_ <;> funext k <;> simp only [Arr.set] <;>
      rcases Nat.lt_trichotomy k n with h | h | h
    · simp [h, Nat.ne_of_lt h, Nat.lt_succ_of_lt h]
    · simp [h]
    · have h1 : ¬ k < n := by omega
      have h2 : ¬ k < n + 1 := by omega
      have h3 : k ≠ n := by omega
      simp [h1, h2, h3]
    · simp [h, Nat.ne_of_lt h, Nat.lt_succ_of_lt h]
    · simp [h]
    · have h1 : ¬ k < n := by omega
      have h2 : ¬ k < n + 1 := by omega
      have h3 : k ≠ n := by omega
      simp [h1, h2, h3]


theorem forLoop_toNat {σ : Type} (n : Int) (body : Nat → σ → σ) (s : σ) :
    forLoop n body s = forLoop ((n.toNat : Nat) : Int) body s := by
  simp only [forLoop, Int.toNat_ofNat]

theorem wrap_int_of_range (x : Int) (h1 : -2147483648 ≤ x) (h2 : x ≤ 2147483647) :
    wrap_int x = x := by
  unfold wrap_int
  omega

theorem spec_dedup_foldl_length {α : Type} (same : α → α → Bool) (l kept : List α) :
    (l.foldl (fun kept x => if kept.any (fun y => same y x) then kept else kept ++ [x])
      kept).length ≤ kept.length + l.length := by
  induction l generalizing kept with
  | nil => simp
  | cons x xs ih =>
    simp only [List.foldl_cons, List.length_cons]
    refine le_trans (ih _) ?_
    split
    · simp
    · simp; omega

theorem spec_dedup_length_le {α : Type} (same : α → α → Bool) (l : List α) :
    (spec_dedup same l).length ≤ l.length := by
  have h := spec_dedup_foldl_length same l []
  simpa [spec_dedup] using h

theorem flatMap_length_le {α β : Type} (l : List α) (g : α → List β) (n : Nat)
    (h : ∀ a, (g a).length ≤ n) : (l.flatMap g).length ≤ l.length * n := by
  induction l with
  | nil => simp
  | cons a as ih =>
    simp only [List.flatMap_cons, List.length_append, List.length_cons]
    have := h a
    calc (g a).length + (as.flatMap g).length ≤ n + as.length * n := by omega
      _ = (as.length + 1) * n := by ring

/-- The symmetry finder of the specification emits at most 48 operations per
pure translation. -/
theorem spec_operations_length_le (M : SymmetryModel) (bravais : Bravais) (cell : Cell)
    (symprec : ℚ) :
    (spec_operations M bravais cell symprec).length
      ≤ 48 * (M.pure_translations cell symprec).length := by
  unfold spec_operations
  refine le_trans (spec_dedup_length_le _ _) ?_
  refine le_trans (flatMap_length_le _ _ (M.pure_translations cell symprec).length ?_) ?_
  · intro R
    exact List.length_filterMap_le _ _
  · exact Nat.mul_le_mul_right _ (M.rotations_le bravais)

/-! ## Theorems on `spg_get_symmetry`, `spg_get_multiplicity`, `spg_get_max_multiplicity` -/

/-- C1: `spg_get_symmetry`: when `sym_get_operation` finds more operations than
`max_size`, the call returns 0, leaves the rotation and translation buffers as
they were and reports on `stderr`; when it finds at most `max_size` (equality
included) the overflow branch is not taken: nothing goes to `stderr` and the
return value is the number found. -/
theorem spg_get_symmetry_overflow (E : Deps) (rotation : Arr (Mat3 Int))
    (translation : Arr (Vec3 ℚ)) (max_size : Int) (lattice : Mat3 ℚ) (position : Arr (Vec3 ℚ))
    (types : Arr Int) (num_atom : Int) (symprec : ℚ) :
    ((found_operations E lattice position types num_atom symprec).size > max_size →
      (spg_get_symmetry E rotation translation max_size lattice position types num_atom
          symprec).ret = 0 ∧
      (spg_get_symmetry E rotation translation max_size lattice position types num_atom
          symprec).rotation = rotation ∧
      (spg_get_symmetry E rotation translation max_size lattice position types num_atom
          symprec).translation = translation ∧
      (spg_get_symmetry E rotation translation max_size lattice position types num_atom
          symprec).stderr ≠ []) ∧
    ((found_operations E lattice position types num_atom symprec).size ≤ max_size →
      (spg_get_symmetry E rotation translation max_size lattice position types num_atom
          symprec).stderr = [] ∧
      (spg_get_symmetry E rotation translation max_size lattice position types num_atom
          symprec).ret = (found_operations E lattice position types num_atom symprec).size) := by
  constructor
  · intro h
    have h' : (E.sym_get_operation
        (E.brv_get_brv_lattice (cel_set_cell (cel_new_cell E num_atom) lattice position
          types).lattice symprec)
        (cel_set_cell (cel_new_cell E num_atom) lattice position types) symprec).size
          > max_size := h
    simp only [spg_get_symmetry, if_pos h']
    simp
  · intro h
    have h' : ¬ (E.sym_get_operation
        (E.brv_get_brv_lattice (cel_set_cell (cel_new_cell E num_atom) lattice position
          types).lattice symprec)
        (cel_set_cell (cel_new_cell E num_atom) lattice position types) symprec).size
          > max_size := not_lt.mpr h
    simp only [spg_get_symmetry, if_neg h']
    simp [found_operations, input_cell]

/-- Witness of C1 on the cell of scenario S2, where two operations are found:
with `max_size = 1` the call overflows, with `max_size = 2` it does not. -/
theorem spg_get_symmetry_overflow_witness :
    ((found_operations bcc_deps bcc_lattice bcc_position bcc_types 2 (1 / 100000)).size > 1 ∧
      (spg_get_symmetry bcc_deps zero_rotations zero_translations 1 bcc_lattice bcc_position
          bcc_types 2 (1 / 100000)).ret = 0 ∧
      (spg_get_symmetry bcc_deps zero_rotations zero_translations 1 bcc_lattice bcc_position
          bcc_types 2 (1 / 100000)).rotation = zero_rotations ∧
      (spg_get_symmetry bcc_deps zero_rotations zero_translations 1 bcc_lattice bcc_position
          bcc_types 2 (1 / 100000)).translation = zero_translations ∧
      (spg_get_symmetry bcc_deps zero_rotations zero_translations 1 bcc_lattice bcc_position
          bcc_types 2 (1 / 100000)).stderr ≠ []) ∧
    ((found_operations bcc_deps bcc_lattice bcc_position bcc_types 2 (1 / 100000)).size ≤ 2 ∧
      (spg_get_symmetry bcc_deps zero_rotations zero_translations 2 bcc_lattice bcc_position
          bcc_types 2 (1 / 100000)).stderr = [] ∧
      (spg_get_symmetry bcc_deps zero_rotations zero_translations 2 bcc_lattice bcc_position
          bcc_types 2 (1 / 100000)).ret
        = (found_operations bcc_deps bcc_lattice bcc_position bcc_types 2 (1 / 100000)).size) :=
  ⟨⟨by decide, (spg_get_symmetry_overflow bcc_deps zero_rotations zero_translations 1
      bcc_lattice bcc_position bcc_types 2 (1 / 100000)).1 (by decide)⟩,
   ⟨by decide, (spg_get_symmetry_overflow bcc_deps zero_rotations zero_translations 2
      bcc_lattice bcc_position bcc_types 2 (1 / 100000)).2 (by decide)⟩⟩

/-- C2: `spg_get_symmetry`: when `max_size` is at least the number `k` of
operations found, the call returns `k`; for every `i < k`, `rotation[i]` and
`translation[i]` are the `i`-th rotation and the `i`-th translation of the set
returned by `sym_get_operation`; the entries at index `k` and above keep the
values they had. -/
theorem spg_get_symmetry_copies (E : Deps) (rotation : Arr (Mat3 Int))
    (translation : Arr (Vec3 ℚ)) (max_size : Int) (lattice : Mat3 ℚ) (position : Arr (Vec3 ℚ))
    (types : Arr Int) (num_atom : Int) (symprec : ℚ)
    (h : (found_operations E lattice position types num_atom symprec).size ≤ max_size) :
    (spg_get_symmetry E rotation translation max_size lattice position types num_atom
        symprec).ret = (found_operations E lattice position types num_atom symprec).size ∧
    (∀ i : Nat, (i : Int) < (found_operations E lattice position types num_atom symprec).size →
      (spg_get_symmetry E rotation translation max_size lattice position types num_atom
          symprec).rotation i
        = (found_operations E lattice position types num_atom symprec).rot i ∧
      (spg_get_symmetry E rotation translation max_size lattice position types num_atom
          symprec).translation i
        = (found_operations E lattice position types num_atom symprec).trans i) ∧
    (∀ i : Nat, (found_operations E lattice position types num_atom symprec).size ≤ (i : Int) →
      (spg_get_symmetry E rotation translation max_size lattice position types num_atom
          symprec).rotation i = rotation i ∧
      (spg_get_symmetry E rotation translation max_size lattice position types num_atom
          symprec).translation i = translation i) := by
  have h' : ¬ (E.sym_get_operation
      (E.brv_get_brv_lattice (cel_set_cell (cel_new_cell E num_atom) lattice position
        types).lattice symprec)
      (cel_set_cell (cel_new_cell E num_atom) lattice position types) symprec).size
        > max_size := not_lt.mpr h
  simp only [spg_get_symmetry, if_neg h']
  rw [forLoop_toNat, forLoop_set_pair]
  refine ⟨rfl, ?_, ?_⟩
  · intro i hi
    have hi' : i < (found_operations E lattice position types num_atom symprec).size.toNat := by
      omega
    exact ⟨if_pos hi', if_pos hi'⟩
  · intro i hi
    have hi' : ¬ i < (found_operations E lattice position types num_atom symprec).size.toNat := by
      omega
    exact ⟨if_neg hi', if_neg hi'⟩

/-- Witness of C2 on the cell of scenario S2 with `max_size = 5`. -/
theorem spg_get_symmetry_copies_witness :
    (found_operations bcc_deps bcc_lattice bcc_position bcc_types 2 (1 / 100000)).size ≤ 5 ∧
    (spg_get_symmetry bcc_deps zero_rotations zero_translations 5 bcc_lattice bcc_position
        bcc_types 2 (1 / 100000)).ret = 2 ∧
    (spg_get_symmetry bcc_deps zero_rotations zero_translations 5 bcc_lattice bcc_position
        bcc_types 2 (1 / 100000)).rotation 1 = identity_i3 ∧
    (spg_get_symmetry bcc_deps zero_rotations zero_translations 5 bcc_lattice bcc_position
        bcc_types 2 (1 / 100000)).translation 1 = bcc_position 1 ∧
    (spg_get_symmetry bcc_deps zero_rotations zero_translations 5 bcc_lattice bcc_position
        bcc_types 2 (1 / 100000)).rotation 2 = zero_rotations 2 :=
  have key := spg_get_symmetry_copies bcc_deps zero_rotations zero_translations 5 bcc_lattice
    bcc_position bcc_types 2 (1 / 100000) (by decide)
  ⟨by decide, key.1, (key.2.1 1 (by decide)).1, (key.2.1 1 (by decide)).2,
    (key.2.2 2 (by decide)).1⟩

/-- C3: `spg_get_multiplicity` returns exactly the number that `spg_get_symmetry`
returns for the same cell and tolerance when `max_size` is at least that
number. -/
theorem spg_get_multiplicity_eq_symmetry (E : Deps) (rotation : Arr (Mat3 Int))
    (translation : Arr (Vec3 ℚ)) (max_size : Int) (lattice : Mat3 ℚ) (position : Arr (Vec3 ℚ))
    (types : Arr Int) (num_atom : Int) (symprec : ℚ)
    (h : spg_get_multiplicity E lattice position types num_atom symprec ≤ max_size) :
    spg_get_multiplicity E lattice position types num_atom symprec
      = (spg_get_symmetry E rotation translation max_size lattice position types num_atom
          symprec).ret := by
  have h' : ¬ (E.sym_get_operation
      (E.brv_get_brv_lattice (cel_set_cell (cel_new_cell E num_atom) lattice position
        types).lattice symprec)
      (cel_set_cell (cel_new_cell E num_atom) lattice position types) symprec).size
        > max_size := not_lt.mpr h
  simp only [spg_get_symmetry, spg_get_multiplicity, if_neg h']

/-- Witness of C3 on the cell of scenario S2 with `max_size = 2`. -/
theorem spg_get_multiplicity_eq_symmetry_witness :
    spg_get_multiplicity bcc_deps bcc_lattice bcc_position bcc_types 2 (1 / 100000) ≤ 2 ∧
    spg_get_multiplicity bcc_deps bcc_lattice bcc_position bcc_types 2 (1 / 100000)
      = (spg_get_symmetry bcc_deps zero_rotations zero_translations 2 bcc_lattice bcc_position
          bcc_types 2 (1 / 100000)).ret :=
  ⟨by decide, spg_get_multiplicity_eq_symmetry bcc_deps zero_rotations zero_translations 2
    bcc_lattice bcc_position bcc_types 2 (1 / 100000) (by decide)⟩

/-- C4: `spg_get_max_multiplicity` returns the pure-translation multiplicity of
the cell (the value of `sym_get_multiplicity`) multiplied by 48, the product
being a value of type `int`. -/
theorem spg_get_max_multiplicity_eq (E : Deps) (lattice : Mat3 ℚ) (position : Arr (Vec3 ℚ))
    (types : Arr Int) (num_atom : Int) (symprec : ℚ)
    (h1 : -2147483648
      ≤ E.sym_get_multiplicity (input_cell E lattice position types num_atom) symprec * 48)
    (h2 : E.sym_get_multiplicity (input_cell E lattice position types num_atom) symprec * 48
      ≤ 2147483647) :
    spg_get_max_multiplicity E lattice position types num_atom symprec
      = E.sym_get_multiplicity (input_cell E lattice position types num_atom) symprec * 48 :=
  wrap_int_of_range _ h1 h2

/-- Witness of C4 on the cell of scenario S2: two pure translations, bound 96. -/
theorem spg_get_max_multiplicity_eq_witness :
    spg_get_max_multiplicity bcc_deps bcc_lattice bcc_position bcc_types 2 (1 / 100000) = 96 :=
  spg_get_max_multiplicity_eq bcc_deps bcc_lattice bcc_position bcc_types 2 (1 / 100000)
    (by decide) (by decide)

/-- C5: with the symmetry finder of the specification, the value returned by
`spg_get_max_multiplicity` is at least the value returned by
`spg_get_multiplicity` for the same cell and tolerance, the bound being a value
of type `int`. -/
theorem spg_get_max_multiplicity_ge (M : SymmetryModel) (E : Deps) (lattice : Mat3 ℚ)
    (position : Arr (Vec3 ℚ)) (types : Arr Int) (num_atom : Int) (symprec : ℚ)
    (h : (spec_deps M E).sym_get_multiplicity
        (input_cell (spec_deps M E) lattice position types num_atom) symprec * 48
      ≤ 2147483647) :
    spg_get_multiplicity (spec_deps M E) lattice position types num_atom symprec
      ≤ spg_get_max_multiplicity (spec_deps M E) lattice position types num_atom symprec := by
  have hlen := spec_operations_length_le M
    ((spec_deps M E).brv_get_brv_lattice
      (input_cell (spec_deps M E) lattice position types num_atom).lattice symprec)
    (input_cell (spec_deps M E) lattice position types num_atom) symprec
  have h0 : (0 : Int) ≤ (spec_deps M E).sym_get_multiplicity
      (input_cell (spec_deps M E) lattice position types num_atom) symprec * 48 := by
    simp only [spec_deps, spec_sym_get_multiplicity]
    positivity
  have hw : spg_get_max_multiplicity (spec_deps M E) lattice position types num_atom symprec
      = (spec_deps M E).sym_get_multiplicity
          (input_cell (spec_deps M E) lattice position types num_atom) symprec * 48 :=
    wrap_int_of_range _ (le_trans (by decide) h0) h
  rw [hw]
  simp only [spg_get_multiplicity, spec_deps, spec_sym_get_operation, spec_sym_get_multiplicity,
    input_cell] at hlen ⊢
  exact_mod_cast (by omega : (spec_operations M _ _ symprec).length
    ≤ (M.pure_translations _ symprec).length * 48)

/-- Witness of C5 on the model of scenario S2: two operations, bound 96. -/
theorem spg_get_max_multiplicity_ge_witness :
    spg_get_multiplicity (spec_deps bcc_model bcc_deps) bcc_lattice bcc_position bcc_types 2
        (1 / 100000)
      ≤ spg_get_max_multiplicity (spec_deps bcc_model bcc_deps) bcc_lattice bcc_position
        bcc_types 2 (1 / 100000) :=
  spg_get_max_multiplicity_ge bcc_model bcc_deps bcc_lattice bcc_position bcc_types 2
    (1 / 100000) (by decide)

/-! ## Theorems on `prm_get_primitive` and `spg_find_primitive` -/

theorem tdiv_pos_of_le (N m : Int) (h1 : 1 < m) (h2 : m ≤ N) : 0 < N.tdiv m := by
  rw [Int.tdiv_eq_ediv (by omega) (by omega)]
  have : (1 : Int) ≤ N / m := Int.le_ediv_of_mul_le (by omega) (by omega)
  omega

theorem tdiv_eq_div_of_le (N m : Int) (h1 : 1 < m) (h2 : m ≤ N) : N.tdiv m = N / m :=
  Int.tdiv_eq_ediv (by omega) (by omega)

/-- The function `get_least_axes` returns 0 exactly when no triple of the
enumeration passes the acceptance test, and 1 otherwise. -/
theorem get_least_axes_eq_zero_iff (E : Deps) (vectors : Arr (Vec3 ℚ)) (multi : Int)
    (cell : Cell) (symprec : ℚ) :
    (get_least_axes E vectors multi cell symprec).1 = 0 ↔
      ∀ t ∈ axis_triples (multi + 2).toNat, axes_accepted E vectors multi cell symprec t = false := by
  unfold get_least_axes
  cases hf : (axis_triples (multi + 2).toNat).find? (axes_accepted E vectors multi cell symprec) with
  | none =>
    simp only [true_iff]
    intro t ht
    have := List.find?_eq_none.mp hf t ht
    simpa using this
  | some t =>
    have h1 := List.find?_some hf
    have h2 := List.mem_of_find?_eq_some hf
    constructor
    · intro h
      simp at h
    · intro h
      have := h t h2
      rw [h1] at this
      exact absurd this (by decide)

/-- When the cell has at most one pure translation, or `get_least_axes` rejects
every triple, `prm_get_primitive` returns a fresh cell of size 0. -/
theorem prm_get_primitive_empty (E : Deps) (cell : Cell) (symprec : ℚ)
    (h : (E.sym_get_pure_translation cell symprec).1 ≤ 1 ∨
      (get_least_axes E (candidate_vectors E cell symprec)
        (E.sym_get_pure_translation cell symprec).1 cell symprec).1 = 0) :
    prm_get_primitive E cell symprec = some (cel_new_cell E 0, []) := by
  unfold prm_get_primitive
  by_cases hm : (E.sym_get_pure_translation cell symprec).1 > 1
  · rcases h with h | h
    · omega
    · have h' : (get_least_axes E
          (get_primitive_vectors E (E.sym_get_pure_translation cell symprec).2
            (E.sym_get_pure_translation cell symprec).1)
          (E.sym_get_pure_translation cell symprec).1 cell symprec).1 = 0 := h
      simp only [if_pos hm, get_primitive, if_pos h']
      simp
  · simp only [if_neg hm]

/-- When the cell of `N` atoms has `m` pure translations, `1 < m ≤ N`, and
`get_least_axes` accepts a triple, `prm_get_primitive` returns a cell of size
`N / m` whose lattice is the reduced primitive lattice. -/
theorem prm_get_primitive_found (E : Deps) (cell : Cell) (symprec : ℚ)
    (hgt : 1 < (E.sym_get_pure_translation cell symprec).1)
    (hle : (E.sym_get_pure_translation cell symprec).1 ≤ cell.size)
    (hax : (get_least_axes E (candidate_vectors E cell symprec)
        (E.sym_get_pure_translation cell symprec).1 cell symprec).1 ≠ 0) :
    ∃ primitive err, prm_get_primitive E cell symprec = some (primitive, err) ∧
      primitive.size = cell.size / (E.sym_get_pure_translation cell symprec).1 ∧
      0 < primitive.size ∧
      primitive.lattice = primitive_lattice E cell symprec := by
  have hpos := tdiv_pos_of_le _ _ hgt hle
  have hdiv := tdiv_eq_div_of_le _ _ hgt hle
  have hm : (E.sym_get_pure_translation cell symprec).1 > 1 := hgt
  have hax' : ¬ (get_least_axes E
      (get_primitive_vectors E (E.sym_get_pure_translation cell symprec).2
        (E.sym_get_pure_translation cell symprec).1)
      (E.sym_get_pure_translation cell symprec).1 cell symprec).1 = 0 := hax
  have hsz : ¬ cell.size.tdiv (E.sym_get_pure_translation cell symprec).1 = 0 := by omega
  unfold prm_get_primitive
  simp only [if_pos hm, get_primitive, if_neg hax', trim_cell, cel_new_cell, if_neg hsz,
    ne_eq, one_ne_zero, not_false_eq_true, if_true]
  exact ⟨_, _, rfl, hdiv, hpos, rfl⟩

/-- C8: `prm_get_primitive`: for a cell of `N` atoms whose pure-translation count
`m` is at most `N`, the call returns a cell; its size is 0 if and only if
`m ≤ 1` or no triple of the `m + 2` candidate vectors passes the test of
`get_least_axes`; in every other case its size is `N / m`. -/
theorem prm_get_primitive_size (E : Deps) (cell : Cell) (symprec : ℚ)
    (hle : (E.sym_get_pure_translation cell symprec).1 ≤ cell.size) :
    ∃ primitive err, prm_get_primitive E cell symprec = some (primitive, err) ∧
      (primitive.size = 0 ↔
        ((E.sym_get_pure_translation cell symprec).1 ≤ 1 ∨
          ∀ t ∈ axis_triples ((E.sym_get_pure_translation cell symprec).1 + 2).toNat,
            axes_accepted E (candidate_vectors E cell symprec)
              (E.sym_get_pure_translation cell symprec).1 cell symprec t = false)) ∧
      (primitive.size ≠ 0 →
        primitive.size = cell.size / (E.sym_get_pure_translation cell symprec).1) := by
  by_cases h : (E.sym_get_pure_translation cell symprec).1 ≤ 1 ∨
      (get_least_axes E (candidate_vectors E cell symprec)
        (E.sym_get_pure_translation cell symprec).1 cell symprec).1 = 0
  · refine ⟨cel_new_cell E 0, [], prm_get_primitive_empty E cell symprec h, ?_, ?_⟩
    · refine ⟨fun _ => ?_, fun _ => rfl⟩
      rcases h with h | h
      · exact Or.inl h
      · exact Or.inr ((get_least_axes_eq_zero_iff _ _ _ _ _).mp h)
    · intro hne
      exact absurd rfl hne
  · have h1 : 1 < (E.sym_get_pure_translation cell symprec).1 := by
      by_contra hc
      exact h (Or.inl (not_lt.mp hc))
    have h2 : (get_least_axes E (candidate_vectors E cell symprec)
        (E.sym_get_pure_translation cell symprec).1 cell symprec).1 ≠ 0 :=
      fun hc => h (Or.inr hc)
    obtain ⟨primitive, err, heq, hsize, hpos, _⟩ :=
      prm_get_primitive_found E cell symprec h1 hle h2
    refine ⟨primitive, err, heq, ?_, fun _ => hsize⟩
    constructor
    · intro h0
      omega
    · intro hor
      rcases hor with hor | hor
      · omega
      · exact absurd ((get_least_axes_eq_zero_iff _ _ _ _ _).mpr hor) h2

/-- Witness of C8 on the cell of scenario S2: two atoms, two pure translations. -/
theorem prm_get_primitive_size_witness :
    (bcc_deps.sym_get_pure_translation
        (input_cell bcc_deps bcc_lattice bcc_position bcc_types 2) (1 / 100000)).1
      ≤ (input_cell bcc_deps bcc_lattice bcc_position bcc_types 2).size ∧
    ∃ primitive err,
      prm_get_primitive bcc_deps (input_cell bcc_deps bcc_lattice bcc_position bcc_types 2)
        (1 / 100000) = some (primitive, err) ∧
      (primitive.size = 0 ↔
        ((bcc_deps.sym_get_pure_translation
            (input_cell bcc_deps bcc_lattice bcc_position bcc_types 2) (1 / 100000)).1 ≤ 1 ∨
          ∀ t ∈ axis_triples ((bcc_deps.sym_get_pure_translation
              (input_cell bcc_deps bcc_lattice bcc_position bcc_types 2) (1 / 100000)).1
                + 2).toNat,
            axes_accepted bcc_deps
              (candidate_vectors bcc_deps
                (input_cell bcc_deps bcc_lattice bcc_position bcc_types 2) (1 / 100000))
              (bcc_deps.sym_get_pure_translation
                (input_cell bcc_deps bcc_lattice bcc_position bcc_types 2) (1 / 100000)).1
              (input_cell bcc_deps bcc_lattice bcc_position bcc_types 2) (1 / 100000) t
                = false)) ∧
      (primitive.size ≠ 0 →
        primitive.size = (input_cell bcc_deps bcc_lattice bcc_position bcc_types 2).size /
          (bcc_deps.sym_get_pure_translation
            (input_cell bcc_deps bcc_lattice bcc_position bcc_types 2) (1 / 100000)).1) :=
  ⟨by decide, prm_get_primitive_size bcc_deps
    (input_cell bcc_deps bcc_lattice bcc_position bcc_types 2) (1 / 100000) (by decide)⟩

/-- C6: `spg_find_primitive`: when the pure-translation multiplicity of the input
cell is at most 1 the call returns 0; and whenever the call returns 0, the
caller's `lattice`, `position` and `types` are as they were passed in, the cell
being already primitive or the primitive extraction having given an empty cell. -/
theorem spg_find_primitive_zero (E : Deps) (lattice : Mat3 ℚ) (position : Arr (Vec3 ℚ))
    (types : Arr Int) (num_atom : Int) (symprec : ℚ) :
    (E.sym_get_multiplicity (input_cell E lattice position types num_atom) symprec ≤ 1 →
      ∃ r, spg_find_primitive E lattice position types num_atom symprec = some r ∧ r.ret = 0) ∧
    (∀ r, spg_find_primitive E lattice position types num_atom symprec = some r → r.ret = 0 →
      r.lattice = lattice ∧ r.position = position ∧ r.types = types ∧
      (E.sym_get_multiplicity (input_cell E lattice position types num_atom) symprec ≤ 1 ∨
        ∃ primitive err,
          prm_get_primitive E (input_cell E lattice position types num_atom) symprec
            = some (primitive, err) ∧ primitive.size = 0)) := by
  constructor
  · intro h
    have h' : ¬ E.sym_get_multiplicity
        (cel_set_cell (cel_new_cell E num_atom) lattice position types) symprec > 1 :=
      not_lt.mpr h
    refine ⟨{ ret := 0, lattice := lattice, position := position, types := types,
              stderr := [] }, ?_, rfl⟩
    simp only [spg_find_primitive, if_neg h']
  · intro r hr h0
    unfold spg_find_primitive at hr
    by_cases hm : E.sym_get_multiplicity
        (cel_set_cell (cel_new_cell E num_atom) lattice position types) symprec > 1
    · simp only [if_pos hm] at hr
      cases hp : prm_get_primitive E
          (cel_set_cell (cel_new_cell E num_atom) lattice position types) symprec with
      | none => simp [hp] at hr
      | some pe =>
        obtain ⟨primitive, err⟩ := pe
        simp only [hp] at hr
        by_cases hs : primitive.size > 0
        · simp only [if_pos hs, Option.some.injEq] at hr
          subst hr
          simp only at h0
          omega
        · simp only [if_neg hs, Option.some.injEq] at hr
          subst hr
          exact ⟨rfl, rfl, rfl, Or.inr ⟨primitive, err, hp, h0⟩⟩
    · simp only [if_neg hm, Option.some.injEq] at hr
      subst hr
      exact ⟨rfl, rfl, rfl, Or.inl (not_lt.mp hm)⟩

/-- Witness of C6: the primitive cubic cell of scenario S1 (one pure
translation) returns 0, and the cell of scenario S2 with no acceptable axes
returns 0 and keeps its arrays. -/
theorem spg_find_primitive_zero_witness :
    (sc_deps.sym_get_multiplicity (input_cell sc_deps sc_lattice sc_position bcc_types 1)
        (1 / 100000) ≤ 1 ∧
      ∃ r, spg_find_primitive sc_deps sc_lattice sc_position bcc_types 1 (1 / 100000) = some r ∧
        r.ret = 0) ∧
    (∃ r, spg_find_primitive no_axes_deps bcc_lattice bcc_position bcc_types 2 (1 / 100000)
        = some r ∧ r.ret = 0 ∧
      r.lattice = bcc_lattice ∧ r.position = bcc_position ∧ r.types = bcc_types) := by
  refine ⟨⟨by decide, (spg_find_primitive_zero sc_deps sc_lattice sc_position bcc_types 1
    (1 / 100000)).1 (by decide)⟩, ?_⟩
  have hp := prm_get_primitive_empty no_axes_deps
    (cel_set_cell (cel_new_cell no_axes_deps 2) bcc_lattice bcc_position bcc_types) (1 / 100000)
    (Or.inr (by decide!))
  have hm : no_axes_deps.sym_get_multiplicity
      (cel_set_cell (cel_new_cell no_axes_deps 2) bcc_lattice bcc_position bcc_types)
      (1 / 100000) > 1 := by decide
  have hr : spg_find_primitive no_axes_deps bcc_lattice bcc_position bcc_types 2 (1 / 100000)
      = some { ret := 0, lattice := bcc_lattice, position := bcc_position, types := bcc_types,
               stderr := [] } := by
    simp only [spg_find_primitive, if_pos hm, hp]
    rfl
  have key := (spg_find_primitive_zero no_axes_deps bcc_lattice bcc_position bcc_types 2
    (1 / 100000)).2 _ hr rfl
  exact ⟨_, hr, rfl, key.1, key.2.1, key.2.2.1⟩

/-- C7: `spg_find_primitive`: for a cell of `N` atoms with `m > 1` pure
translations (`m ≤ N`) for which `get_least_axes` accepts a triple, the call
returns `N / m`, overwrites `lattice` with the lattice of the primitive cell,
overwrites the first `N / m` entries of `position` and `types` with the atoms of
the primitive cell returned by `prm_get_primitive`, and leaves the entries at
index `N / m` and above as they were. -/
theorem spg_find_primitive_overwrites (E : Deps) (lattice : Mat3 ℚ) (position : Arr (Vec3 ℚ))
    (types : Arr Int) (num_atom : Int) (symprec : ℚ) (m : Int)
    (hmul : E.sym_get_multiplicity (input_cell E lattice position types num_atom) symprec = m)
    (hpure : (E.sym_get_pure_translation (input_cell E lattice position types num_atom)
      symprec).1 = m)
    (hgt : 1 < m) (hle : m ≤ num_atom)
    (hax : (get_least_axes E
      (candidate_vectors E (input_cell E lattice position types num_atom) symprec) m
      (input_cell E lattice position types num_atom) symprec).1 ≠ 0) :
    ∃ r primitive err,
      spg_find_primitive E lattice position types num_atom symprec = some r ∧
      prm_get_primitive E (input_cell E lattice position types num_atom) symprec
        = some (primitive, err) ∧
      r.ret = num_atom / m ∧
      primitive.size = num_atom / m ∧
      r.lattice = primitive.lattice ∧
      primitive.lattice
        = primitive_lattice E (input_cell E lattice position types num_atom) symprec ∧
      (∀ i : Nat, (i : Int) < num_atom / m →
        r.position i = primitive.position i ∧ r.types i = primitive.types i) ∧
      (∀ i : Nat, num_atom / m ≤ (i : Int) →
        r.position i = position i ∧ r.types i = types i) := by
  subst hpure
  obtain ⟨primitive, err, heq, hsize, hpos, hlat⟩ :=
    prm_get_primitive_found E (input_cell E lattice position types num_atom) symprec hgt hle hax
  have hsize' : primitive.size = num_atom /
      (E.sym_get_pure_translation (input_cell E lattice position types num_atom) symprec).1 :=
    hsize
  have hm : E.sym_get_multiplicity
      (cel_set_cell (cel_new_cell E num_atom) lattice position types) symprec > 1 := by
    show E.sym_get_multiplicity (input_cell E lattice position types num_atom) symprec > 1
    rw [hmul]
    exact hgt
  have heq' : prm_get_primitive E
      (cel_set_cell (cel_new_cell E num_atom) lattice position types) symprec
        = some (primitive, err) := heq
  have hpos' : primitive.size > 0 := hpos
  have hres : spg_find_primitive E lattice position types num_atom symprec
      = some { ret := primitive.size, lattice := primitive.lattice,
               position := fun k => if k < primitive.size.toNat then primitive.position k
                 else position k,
               types := fun k => if k < primitive.size.toNat then primitive.types k
                 else types k,
               stderr := err } := by
    simp only [spg_find_primitive, if_pos hm, heq', if_pos hpos']
    rw [forLoop_toNat, forLoop_set_pair]
  refine ⟨_, primitive, err, hres, heq, hsize', hsize', rfl, hlat, ?_, ?_⟩
  · intro i hi
    have hi' : i < primitive.size.toNat := by omega
    exact ⟨if_pos hi', if_pos hi'⟩
  · intro i hi
    have hi' : ¬ i < primitive.size.toNat := by omega
    exact ⟨if_neg hi', if_neg hi'⟩

/-- Witness of C7 on the body-centred cubic cell of scenario S2 (`N = 2`,
`m = 2`): the call returns 1, writes entry 0 and keeps entry 1. -/
theorem spg_find_primitive_overwrites_witness :
    bcc_deps.sym_get_multiplicity (input_cell bcc_deps bcc_lattice bcc_position bcc_types 2)
      (1 / 100000) = 2 ∧
    (bcc_deps.sym_get_pure_translation (input_cell bcc_deps bcc_lattice bcc_position bcc_types 2)
      (1 / 100000)).1 = 2 ∧
    (get_least_axes bcc_deps
      (candidate_vectors bcc_deps (input_cell bcc_deps bcc_lattice bcc_position bcc_types 2)
        (1 / 100000)) 2
      (input_cell bcc_deps bcc_lattice bcc_position bcc_types 2) (1 / 100000)).1 ≠ 0 ∧
    ∃ r, spg_find_primitive bcc_deps bcc_lattice bcc_position bcc_types 2 (1 / 100000) = some r ∧
      r.ret = 1 ∧
      r.lattice = primitive_lattice bcc_deps
        (input_cell bcc_deps bcc_lattice bcc_position bcc_types 2) (1 / 100000) ∧
      r.position 1 = bcc_position 1 ∧ r.types 1 = bcc_types 1 := by
  obtain ⟨r, primitive, err, h1, _, h3, _, h5, h6, _, h8⟩ :=
    spg_find_primitive_overwrites bcc_deps bcc_lattice bcc_position bcc_types 2 (1 / 100000) 2
      rfl rfl (by decide) (by decide) (by decide!)
  exact ⟨rfl, rfl, by decide!, r, h1, h3, h5.trans h6, (h8 1 (by decide)).1,
    (h8 1 (by decide)).2⟩

/-! ## Theorems on `spg_get_international` and `spg_get_schoenflies` -/

theorem cstr_nil : cstr [] = [] := rfl

theorem cstr_cons_nul (c : Char) (cs : List Char) (h : c = NUL) : cstr (c :: cs) = [] := by
  simp [cstr, List.takeWhile_cons, h]

theorem cstr_cons (c : Char) (cs : List Char) (h : c ≠ NUL) :
    cstr (c :: cs) = c :: cstr cs := by
  simp [cstr, List.takeWhile_cons, h]

theorem cstr_ne_nul (s : List Char) (x : Char) (hx : x ∈ cstr s) : x ≠ NUL := by
  have := List.mem_takeWhile_imp hx
  simpa using this

/-- The call `strcpy(&dst[off], src)` leaves the characters before `dst[off]`
as they were. -/
theorem strcpy_below (src : List Char) (dst : Arr Char) (off n : Nat) (h : n < off) :
    strcpy dst off src n = dst n := by
  induction src generalizing dst off with
  | nil => simp [strcpy, Arr.set, Nat.ne_of_lt h]
  | cons c cs ih =>
    unfold strcpy
    split
    · simp [Arr.set, Nat.ne_of_lt h]
    · rw [ih _ _ (Nat.lt_succ_of_lt h)]
      simp [Arr.set, Nat.ne_of_lt h]

/-- The call `strcpy(&dst[off], src)` stores the `i`-th character of the C string
`src` at `dst[off + i]`. -/
theorem strcpy_at (src : List Char) (dst : Arr Char) (off i : Nat)
    (h : i < (cstr src).length) :
    strcpy dst off src (off + i) = (cstr src).getD i NUL := by
  induction src generalizing dst off i with
  | nil => simp [cstr_nil] at h
  | cons c cs ih =>
    by_cases hc : c = NUL
    · simp [cstr_cons_nul c cs hc] at h
    · rw [cstr_cons c cs hc] at h ⊢
      unfold strcpy
      rw [if_neg hc]
      cases i with
      | zero =>
        show strcpy (dst.set off c) (off + 1) cs off = _
        rw [strcpy_below cs (dst.set off c) (off + 1) off (Nat.lt_succ_self off)]
        simp [Arr.set]
      | succ j =>
        have hj : j < (cstr cs).length := by simpa using h
        have := ih (dst.set off c) (off + 1) j hj
        rw [show off + (j + 1) = off + 1 + j by omega, this]
        simp

/-- The call `strcpy(&dst[off], src)` stores the terminating NUL right after the
characters of the C string `src`. -/
theorem strcpy_end (src : List Char) (dst : Arr Char) (off : Nat) :
    strcpy dst off src (off + (cstr src).length) = NUL := by
  induction src generalizing dst off with
  | nil => simp [strcpy, Arr.set, cstr_nil]
  | cons c cs ih =>
    by_cases hc : c = NUL
    · simp [strcpy, hc, Arr.set, cstr_cons_nul]
    · rw [cstr_cons c cs hc]
      unfold strcpy
      rw [if_neg hc]
      have := ih (dst.set off c) (off + 1)
      rw [show off + (c :: cstr cs).length = off + 1 + (cstr cs).length by
        simp only [List.length_cons]; omega]
      exact this

/-- A buffer that holds the characters of `l` (none of them NUL) from `buf[off]`
on, followed by NUL, reads back as the C string `l`. -/
theorem read_cstr_eq (l : List Char) (buf : Arr Char) (off fuel : Nat)
    (hl : ∀ x ∈ l, x ≠ NUL)
    (hbuf : ∀ i, i < l.length → buf (off + i) = l.getD i NUL)
    (hend : buf (off + l.length) = NUL) (hfuel : l.length < fuel) :
    read_cstr buf off fuel = l := by
  induction l generalizing off fuel with
  | nil =>
    cases fuel with
    | zero => simp at hfuel
    | succ f => simpa [read_cstr] using hend
  | cons x xs ih =>
    cases fuel with
    | zero => simp at hfuel
    | succ f =>
      have h0 : buf off = x := by simpa using hbuf 0 (by simp)
      have hx : x ≠ NUL := hl x (by simp)
      unfold read_cstr
      rw [h0, if_neg hx]
      congr 1
      apply ih
      · intro y hy
        exact hl y (List.mem_cons_of_mem _ hy)
      · intro i hi
        have := hbuf (i + 1) (by simp only [List.length_cons]; omega)
        rw [show off + 1 + i = off + (i + 1) by omega, this]
        simp
      · rw [show off + 1 + xs.length = off + (x :: xs).length by
          simp only [List.length_cons]; omega]
        exact hend
      · simp only [List.length_cons] at hfuel
        omega

/-- The value returned by `spg_get_international` is the number of the record. -/
theorem symbol_ret_eq (E : Deps) (symbol : Arr Char) (lattice : Mat3 ℚ)
    (position : Arr (Vec3 ℚ)) (types : Arr Int) (num_atom : Int) (symprec : ℚ) :
    (spg_get_international E symbol lattice position types num_atom symprec).ret
      = (E.tbl_get_spacegroup
          (cel_set_cell (cel_new_cell E num_atom) lattice position types) symprec).number := by
  unfold spg_get_international
  simp only
  split <;> rfl

/-- C9: `spg_get_international` and `spg_get_schoenflies` each return the
space-group number computed by `tbl_get_spacegroup`, and when that number is 0
the symbol buffer after the call equals the symbol buffer before the call. -/
theorem symbol_unwritten_on_failure (E : Deps) (symbol : Arr Char) (lattice : Mat3 ℚ)
    (position : Arr (Vec3 ℚ)) (types : Arr Int) (num_atom : Int) (symprec : ℚ) :
    (spg_get_international E symbol lattice position types num_atom symprec).ret
      = (E.tbl_get_spacegroup (input_cell E lattice position types num_atom) symprec).number ∧
    (spg_get_schoenflies E symbol lattice position types num_atom symprec).ret
      = (E.tbl_get_spacegroup (input_cell E lattice position types num_atom) symprec).number ∧
    ((E.tbl_get_spacegroup (input_cell E lattice position types num_atom) symprec).number = 0 →
      (spg_get_international E symbol lattice position types num_atom symprec).symbol = symbol ∧
      (spg_get_schoenflies E symbol lattice position types num_atom symprec).symbol = symbol) := by
  refine ⟨?_, ?_, ?_⟩
  · unfold spg_get_international
    simp only [input_cell]
    split <;> rfl
  · unfold spg_get_schoenflies
    simp only [input_cell]
    split <;> rfl
  · intro h
    have h' : ¬ (E.tbl_get_spacegroup
        (cel_set_cell (cel_new_cell E num_atom) lattice position types) symprec).number > 0 := by
      have : (E.tbl_get_spacegroup
        (cel_set_cell (cel_new_cell E num_atom) lattice position types) symprec).number = 0 := h
      omega
    constructor
    · simp only [spg_get_international, if_neg h']
    · simp only [spg_get_schoenflies, if_neg h']

/-- Witness of C9 on a cell whose classification fails (number 0). -/
theorem symbol_unwritten_on_failure_witness :
    (unclassified_deps.tbl_get_spacegroup
      (input_cell unclassified_deps bcc_lattice bcc_position bcc_types 2) (1 / 100000)).number
        = 0 ∧
    (spg_get_international unclassified_deps blank_symbol bcc_lattice bcc_position bcc_types 2
      (1 / 100000)).ret = 0 ∧
    (spg_get_international unclassified_deps blank_symbol bcc_lattice bcc_position bcc_types 2
      (1 / 100000)).symbol = blank_symbol ∧
    (spg_get_schoenflies unclassified_deps blank_symbol bcc_lattice bcc_position bcc_types 2
      (1 / 100000)).symbol = blank_symbol :=
  have key := symbol_unwritten_on_failure unclassified_deps blank_symbol bcc_lattice bcc_position
    bcc_types 2 (1 / 100000)
  ⟨rfl, key.1, (key.2.2 rfl).1, (key.2.2 rfl).2⟩

/-- C10: `spg_get_international`: when the returned number is greater than 0 and
the Bravais symbol of the record is the single letter `c`, the buffer holds `c`
at index 0, the characters of the international short symbol from index 1 on,
and the terminating NUL right after them: the string written is `c` followed
by the short symbol. -/
theorem spg_get_international_symbol (E : Deps) (symbol : Arr Char) (lattice : Mat3 ℚ)
    (position : Arr (Vec3 ℚ)) (types : Arr Int) (num_atom : Int) (symprec : ℚ) (c : Char)
    (hpos : (spg_get_international E symbol lattice position types num_atom symprec).ret > 0)
    (hone : cstr (E.tbl_get_spacegroup (input_cell E lattice position types num_atom)
      symprec).bravais_symbol = [c]) :
    (spg_get_international E symbol lattice position types num_atom symprec).symbol 0 = c ∧
    (∀ i, i < (cstr (E.tbl_get_spacegroup (input_cell E lattice position types num_atom)
        symprec).international).length →
      (spg_get_international E symbol lattice position types num_atom symprec).symbol (1 + i)
        = (cstr (E.tbl_get_spacegroup (input_cell E lattice position types num_atom)
            symprec).international).getD i NUL) ∧
    (spg_get_international E symbol lattice position types num_atom symprec).symbol
      (1 + (cstr (E.tbl_get_spacegroup (input_cell E lattice position types num_atom)
        symprec).international).length) = NUL ∧
    read_cstr (spg_get_international E symbol lattice position types num_atom symprec).symbol 0
      ((cstr (E.tbl_get_spacegroup (input_cell E lattice position types num_atom)
        symprec).international).length + 2)
      = c :: cstr (E.tbl_get_spacegroup (input_cell E lattice position types num_atom)
        symprec).international := by
  have hnum : (E.tbl_get_spacegroup
      (cel_set_cell (cel_new_cell E num_atom) lattice position types) symprec).number > 0 := by
    have h := (symbol_ret_eq E symbol lattice position types num_atom symprec)
    rw [h] at hpos
    exact hpos
  have hsym : (spg_get_international E symbol lattice position types num_atom symprec).symbol
      = strcpy (strcpy symbol 0 (E.tbl_get_spacegroup
          (input_cell E lattice position types num_atom) symprec).bravais_symbol) 1
        (E.tbl_get_spacegroup (input_cell E lattice position types num_atom)
          symprec).international := by
    simp only [spg_get_international, if_pos hnum, input_cell]
  have h0 : (spg_get_international E symbol lattice position types num_atom symprec).symbol 0
      = c := by
    rw [hsym, strcpy_below _ _ _ _ Nat.zero_lt_one]
    have := strcpy_at (E.tbl_get_spacegroup (input_cell E lattice position types num_atom)
      symprec).bravais_symbol symbol 0 0 (by rw [hone]; simp)
    rw [hone] at this
    simpa using this
  have hi : ∀ i, i < (cstr (E.tbl_get_spacegroup (input_cell E lattice position types num_atom)
        symprec).international).length →
      (spg_get_international E symbol lattice position types num_atom symprec).symbol (1 + i)
        = (cstr (E.tbl_get_spacegroup (input_cell E lattice position types num_atom)
            symprec).international).getD i NUL := by
    intro i hi
    rw [hsym]
    exact strcpy_at _ _ 1 i hi
  have hend : (spg_get_international E symbol lattice position types num_atom symprec).symbol
      (1 + (cstr (E.tbl_get_spacegroup (input_cell E lattice position types num_atom)
        symprec).international).length) = NUL := by
    rw [hsym]
    exact strcpy_end _ _ 1
  have hc : c ≠ NUL := cstr_ne_nul _ c (by rw [hone]; simp)
  refine ⟨h0, hi, hend, ?_⟩
  apply read_cstr_eq
  · intro x hx
    rcases List.mem_cons.mp hx with hx | hx
    · rw [hx]; exact hc
    · exact cstr_ne_nul _ x hx
  · intro i hlt
    cases i with
    | zero => simpa using h0
    | succ j =>
      have hj : j < (cstr (E.tbl_get_spacegroup (input_cell E lattice position types num_atom)
          symprec).international).length := by simpa using hlt
      have := hi j hj
      rw [show 0 + (j + 1) = 1 + j by omega, this]
      simp
  · rw [show 0 + (c :: cstr (E.tbl_get_spacegroup (input_cell E lattice position types num_atom)
        symprec).international).length
      = 1 + (cstr (E.tbl_get_spacegroup (input_cell E lattice position types num_atom)
        symprec).international).length by simp only [List.length_cons]; omega]
    exact hend
  · simp only [List.length_cons]
    omega

/-- Witness of C10 on the cell of scenario S2: number 229, Bravais symbol `I`,
short symbol `m-3m`; the buffer reads `Im-3m`. -/
theorem spg_get_international_symbol_witness :
    (spg_get_international bcc_deps blank_symbol bcc_lattice bcc_position bcc_types 2
      (1 / 100000)).ret > 0 ∧
    cstr (bcc_deps.tbl_get_spacegroup (input_cell bcc_deps bcc_lattice bcc_position bcc_types 2)
      (1 / 100000)).bravais_symbol = ['I'] ∧
    read_cstr (spg_get_international bcc_deps blank_symbol bcc_lattice bcc_position bcc_types 2
      (1 / 100000)).symbol 0 6 = ['I', 'm', '-', '3', 'm'] :=
  ⟨by decide, by decide,
    (spg_get_international_symbol bcc_deps blank_symbol bcc_lattice bcc_position bcc_types 2
      (1 / 100000) 'I' (by decide) (by decide)).2.2.2⟩

/-! ## Theorems on `get_primitive` and `get_least_axes` -/

/-- A loop that stores `f i` at index `i` fills exactly the first `n` entries. -/
theorem forLoop_set {α : Type} (f : Nat → α) (a : Arr α) (n : Nat) :
    forLoop (n : Int) (fun i (v : Arr α) => v.set i (f i)) a
      = fun k => if k < n then f k else a k := by
  induction n with
  | zero => simp [forLoop]
  | succ n ih =>
    rw [forLoop_succ, ih]
    funext k
    simp only [Arr.set]
    rcases Nat.lt_trichotomy k n with h | h | h
    · simp [h, Nat.ne_of_lt h, Nat.lt_succ_of_lt h]
    · simp [h]
    · have h1 : ¬ k < n := by omega
      have h2 : ¬ k < n + 1 := by omega
      have h3 : k ≠ n := by omega
      simp [h1, h2, h3]

/-- The array `vectors` of `get_primitive` in closed form, for `multi ≥ 1`. -/
theorem get_primitive_vectors_eq (E : Deps) (pure_trans : Arr (Vec3 ℚ)) (multi : Int)
    (hm : 1 ≤ multi) (n : Nat) :
    get_primitive_vectors E pure_trans multi n
      = if n < (multi - 1).toNat then pure_trans (n + 1)
        else if n = (multi - 1).toNat then (fun j => if 0 = j.val then 1 else 0)
        else if n = (multi - 1).toNat + 1 then (fun j => if 1 = j.val then 1 else 0)
        else if n = (multi - 1).toNat + 2 then (fun j => if 2 = j.val then 1 else 0)
        else E.garbage.position n := by
  unfold get_primitive_vectors
  rw [forLoop_toNat (multi - 1), forLoop_set]
  have e0 : (((0 : Nat) : Int) + multi - 1).toNat = (multi - 1).toNat := by omega
  have e1 : (((1 : Nat) : Int) + multi - 1).toNat = (multi - 1).toNat + 1 := by omega
  have e2 : (((2 : Nat) : Int) + multi - 1).toNat = (multi - 1).toNat + 2 := by omega
  simp only [forLoop, show (3 : Int).toNat = 3 from rfl, List.range_succ, List.range_zero,
    List.nil_append, List.cons_append, List.foldl_cons, List.foldl_nil, Arr.set, e0, e1, e2]
  by_cases h2 : n = (multi - 1).toNat + 2
  · have h3 : ¬ n < (multi - 1).toNat := by omega
    have h4 : n ≠ (multi - 1).toNat := by omega
    have h5 : n ≠ (multi - 1).toNat + 1 := by omega
    rw [if_pos h2, if_neg h3, if_neg h4, if_neg h5, if_pos h2]
  · by_cases h1 : n = (multi - 1).toNat + 1
    · have h3 : ¬ n < (multi - 1).toNat := by omega
      have h4 : n ≠ (multi - 1).toNat := by omega
      rw [if_neg h2, if_pos h1, if_neg h3, if_neg h4, if_pos h1]
    · by_cases h0 : n = (multi - 1).toNat
      · have h3 : ¬ n < (multi - 1).toNat := by omega
        rw [if_neg h2, if_neg h1, if_pos h0, if_neg h3, if_pos h0]
      · rw [if_neg h2, if_neg h1, if_neg h0]
        by_cases h3 : n < (multi - 1).toNat
        · rw [if_pos h3, if_pos h3]
        · rw [if_neg h3, if_neg h3, if_neg h0, if_neg h1, if_neg h2]

/-- C11: `get_primitive` builds the candidate list `V` of exactly `m + 2` vectors:
its first `m - 1` entries are the pure translations other than the identity,
`pure_trans[1..m-1]` in order; its last three entries are the unit vectors
`(1,0,0)`, `(0,1,0)`, `(0,0,1)`; nothing is stored at index `m + 2` or above. -/
theorem get_primitive_vectors_spec (E : Deps) (pure_trans : Arr (Vec3 ℚ)) (multi : Int)
    (hm : 1 ≤ multi) :
    (∀ i : Nat, (i : Int) < multi - 1 →
      get_primitive_vectors E pure_trans multi i = pure_trans (i + 1)) ∧
    (∀ i : Fin 3, get_primitive_vectors E pure_trans multi ((multi - 1).toNat + i.val)
      = fun j => if i = j then 1 else 0) ∧
    (∀ n : Nat, (n : Int) < multi + 2 →
      (n : Int) < multi - 1 ∨ ∃ i : Fin 3, n = (multi - 1).toNat + i.val) ∧
    (∀ n : Nat, multi + 2 ≤ (n : Int) →
      get_primitive_vectors E pure_trans multi n = E.garbage.position n) := by
  refine ⟨?_, ?_, ?_, ?_⟩
  · intro i hi
    have : i < (multi - 1).toNat := by omega
    rw [get_primitive_vectors_eq E pure_trans multi hm, if_pos this]
  · intro i
    rw [get_primitive_vectors_eq E pure_trans multi hm]
    have h0 : ¬ (multi - 1).toNat + i.val < (multi - 1).toNat := by omega
    rw [if_neg h0]
    fin_cases i
    · funext j
      fin_cases j <;> simp
    · funext j
      fin_cases j <;> simp
    · funext j
      fin_cases j <;> simp
  · intro n hn
    by_cases h : (n : Int) < multi - 1
    · exact Or.inl h
    · right
      have h3 : n - (multi - 1).toNat < 3 := by omega
      exact ⟨⟨n - (multi - 1).toNat, h3⟩, by simp only; omega⟩
  · intro n hn
    rw [get_primitive_vectors_eq E pure_trans multi hm]
    have h0 : ¬ n < (multi - 1).toNat := by omega
    have h1 : n ≠ (multi - 1).toNat := by omega
    have h2 : n ≠ (multi - 1).toNat + 1 := by omega
    have h3 : n ≠ (multi - 1).toNat + 2 := by omega
    rw [if_neg h0, if_neg h1, if_neg h2, if_neg h3]

/-- Witness of C11 on the cell of scenario S2 (`m = 2`): the list is
`(1/2,1/2,1/2)`, `(1,0,0)`, `(0,1,0)`, `(0,0,1)`. -/
theorem get_primitive_vectors_spec_witness :
    (1 : Int) ≤ 2 ∧
    get_primitive_vectors bcc_deps bcc_position 2 0 = bcc_position 1 ∧
    (get_primitive_vectors bcc_deps bcc_position 2 ((2 - 1 : Int).toNat + (2 : Fin 3).val)
      = fun j => if (2 : Fin 3) = j then 1 else 0) ∧
    get_primitive_vectors bcc_deps bcc_position 2 4 = bcc_deps.garbage.position 4 :=
  have key := get_primitive_vectors_spec bcc_deps bcc_position 2 (by decide)
  ⟨by decide, key.1 0 (by decide), key.2.1 2, key.2.2.2 4 (by decide)⟩

/-- The loops of `get_least_axes` visit exactly the triples `i < j < k < n`. -/
theorem mem_axis_triples (n : Nat) (t : Nat × Nat × Nat) :
    t ∈ axis_triples n ↔ t.1 < t.2.1 ∧ t.2.1 < t.2.2 ∧ t.2.2 < n := by
  obtain ⟨i, j, k⟩ := t
  simp only [axis_triples, List.mem_flatMap, List.mem_filter, List.mem_range, List.mem_map,
    decide_eq_true_eq, Prod.mk.injEq]
  constructor
  · rintro ⟨i', _, j', ⟨_, hij⟩, k', ⟨hk, hjk⟩, rfl, rfl, rfl⟩
    exact ⟨hij, hjk, hk⟩
  · rintro ⟨hij, hjk, hk⟩
    exact ⟨i, by omega, j, ⟨by omega, hij⟩, k, ⟨hk, hjk⟩, rfl, rfl, rfl⟩

/-- The loops of `get_least_axes` visit the triples in lexicographic order. -/
theorem axis_triples_sorted (n : Nat) : (axis_triples n).Pairwise triple_lt := by
  unfold axis_triples
  rw [List.pairwise_flatMap]
  constructor
  · intro i _
    rw [List.pairwise_flatMap]
    constructor
    · intro j _
      rw [List.pairwise_map]
      refine List.Pairwise.imp ?_ ((List.pairwise_lt_range n).filter _)
      intro k1 k2 hk
      exact Or.inr ⟨rfl, Or.inr ⟨rfl, hk⟩⟩
    · refine List.Pairwise.imp ?_ ((List.pairwise_lt_range n).filter _)
      intro j1 j2 hj x hx y hy
      simp only [List.mem_map, List.mem_filter] at hx hy
      obtain ⟨_, _, rfl⟩ := hx
      obtain ⟨_, _, rfl⟩ := hy
      exact Or.inr ⟨rfl, Or.inl hj⟩
  · refine List.Pairwise.imp ?_ (List.pairwise_lt_range n)
    intro i1 i2 hi x hx y hy
    simp only [List.mem_flatMap, List.mem_map, List.mem_filter] at hx hy
    obtain ⟨_, _, _, _, rfl⟩ := hx
    obtain ⟨_, _, _, _, rfl⟩ := hy
    exact Or.inl hi

theorem triple_lt_asymm (s t : Nat × Nat × Nat) (h : triple_lt s t) : ¬ triple_lt t s := by
  unfold triple_lt at *
  omega

theorem triple_lt_irrefl (t : Nat × Nat × Nat) : ¬ triple_lt t t := by
  unfold triple_lt
  omega

/-- In a list sorted by `triple_lt`, the first element that passes a test is
preceded by every element of the list below it. -/
theorem find_first_of_sorted (l : List (Nat × Nat × Nat)) (p : Nat × Nat × Nat → Bool)
    (hl : l.Pairwise triple_lt) (t : Nat × Nat × Nat) (hf : l.find? p = some t) :
    t ∈ l ∧ p t = true ∧ ∀ s ∈ l, triple_lt s t → p s = false := by
  obtain ⟨hp, as, bs, hsplit, has⟩ := List.find?_eq_some.mp hf
  refine ⟨List.mem_of_find?_eq_some hf, hp, ?_⟩
  intro s hs hst
  rw [hsplit] at hs hl
  rcases List.mem_append.mp hs with h | h
  · simpa using has s h
  · rcases List.mem_cons.mp h with h | h
    · rw [h] at hst
      exact absurd hst (triple_lt_irrefl t)
    · have hts : triple_lt t s := by
        have h2 := (List.pairwise_append.mp hl).2.1
        exact (List.pairwise_cons.mp h2).1 s h
      exact absurd hst (triple_lt_asymm t s hts)

/-- C12: `get_least_axes` visits the index triples `i < j < k` of the `m + 2`
candidates in lexicographic order; it returns 0 exactly when no triple passes
the acceptance test; when it succeeds it returns 1, the triple it takes passes
the test and no triple before it in lexicographic order does, slots 0, 1, 2 of
`vectors` hold the original `V[i]`, `V[j]`, `V[k]` and the other slots are as
they were. -/
theorem get_least_axes_first (E : Deps) (vectors : Arr (Vec3 ℚ)) (multi : Int) (cell : Cell)
    (symprec : ℚ) :
    (∀ t, t ∈ axis_triples (multi + 2).toNat ↔
      t.1 < t.2.1 ∧ t.2.1 < t.2.2 ∧ t.2.2 < (multi + 2).toNat) ∧
    (axis_triples (multi + 2).toNat).Pairwise triple_lt ∧
    ((get_least_axes E vectors multi cell symprec).1 = 0 ↔
      ∀ t ∈ axis_triples (multi + 2).toNat,
        axes_accepted E vectors multi cell symprec t = false) ∧
    ((get_least_axes E vectors multi cell symprec).1 ≠ 0 →
      (get_least_axes E vectors multi cell symprec).1 = 1 ∧
      ∃ t ∈ axis_triples (multi + 2).toNat,
        axes_accepted E vectors multi cell symprec t = true ∧
        (∀ s ∈ axis_triples (multi + 2).toNat, triple_lt s t →
          axes_accepted E vectors multi cell symprec s = false) ∧
        (get_least_axes E vectors multi cell symprec).2 0 = vectors t.1 ∧
        (get_least_axes E vectors multi cell symprec).2 1 = vectors t.2.1 ∧
        (get_least_axes E vectors multi cell symprec).2 2 = vectors t.2.2 ∧
        ∀ n, 3 ≤ n → (get_least_axes E vectors multi cell symprec).2 n = vectors n) := by
  refine ⟨mem_axis_triples _, axis_triples_sorted _, get_least_axes_eq_zero_iff _ _ _ _ _, ?_⟩
  intro hne
  cases hf : (axis_triples (multi + 2).toNat).find? (axes_accepted E vectors multi cell symprec) with
  | none =>
    exfalso
    apply hne
    simp only [get_least_axes, hf]
  | some t =>
    obtain ⟨hmem, hp, hfirst⟩ := find_first_of_sorted _ _ (axis_triples_sorted _) t hf
    have hres : get_least_axes E vectors multi cell symprec
        = (1, ((vectors.set 0 (vectors t.1)).set 1 (vectors t.2.1)).set 2 (vectors t.2.2)) := by
      simp only [get_least_axes, hf]
    rw [hres]
    refine ⟨rfl, t, hmem, hp, hfirst, ?_, ?_, ?_, ?_⟩
    · simp [Arr.set]
    · simp [Arr.set]
    · simp [Arr.set]
    · intro n hn
      have h0 : n ≠ 0 := by omega
      have h1 : n ≠ 1 := by omega
      have h2 : n ≠ 2 := by omega
      simp [Arr.set, h0, h1, h2]

/-- Witness of C12 on the cell of scenario S2: the call succeeds and leaves
`V[0]` in slot 0. -/
theorem get_least_axes_first_witness :
    (get_least_axes bcc_deps (get_primitive_vectors bcc_deps bcc_position 2) 2
      (input_cell bcc_deps bcc_lattice bcc_position bcc_types 2) (1 / 100000)).1 ≠ 0 ∧
    (get_least_axes bcc_deps (get_primitive_vectors bcc_deps bcc_position 2) 2
      (input_cell bcc_deps bcc_lattice bcc_position bcc_types 2) (1 / 100000)).1 = 1 :=
  ⟨by decide!, ((get_least_axes_first bcc_deps (get_primitive_vectors bcc_deps bcc_position 2) 2
    (input_cell bcc_deps bcc_lattice bcc_position bcc_types 2) (1 / 100000)).2.2.2
      (by decide!)).1⟩

/-- The acceptance test of `get_least_axes` in terms of the volume of the
triple. -/
theorem axes_accepted_iff (E : Deps) (vectors : Arr (Vec3 ℚ)) (multi : Int) (cell : Cell)
    (symprec : ℚ) (t : Nat × Nat × Nat) :
    axes_accepted E vectors multi cell symprec t = true ↔
      symprec < mat_Dabs (triple_volume cell vectors t) ∧
      E.mat_Nint (mat_Dabs (mat_get_determinant_d3 cell.lattice) / triple_volume cell vectors t)
        = multi := by
  simp [axes_accepted, triple_volume]

theorem mat_Dabs_eq_abs (a : ℚ) : mat_Dabs a = |a| := by
  unfold mat_Dabs
  split
  · rw [abs_of_neg ‹a < 0›]
  · rw [abs_of_nonneg (not_lt.mp ‹¬ a < 0›)]

theorem mat_Dabs_idem (a : ℚ) : mat_Dabs (mat_Dabs a) = mat_Dabs a := by
  simp [mat_Dabs_eq_abs]

/-- Rounding halves away from zero stays within one half of its argument. -/
theorem nint_half_away_near (x : ℚ) : |x - (nint_half_away x : ℚ)| ≤ 1 / 2 := by
  unfold nint_half_away
  split
  · have h1 : ((Rat.floor (-x + 1 / 2) : Int) : ℚ) ≤ -x + 1 / 2 := Rat.le_floor.mp le_rfl
    have h2 : -x + 1 / 2 < ((Rat.floor (-x + 1 / 2) : Int) : ℚ) + 1 := by
      by_contra hc
      have hc' : (((Rat.floor (-x + 1 / 2) + 1 : Int)) : ℚ) ≤ -x + 1 / 2 := by
        push_cast
        exact not_lt.mp hc
      have := Rat.le_floor.mpr hc'
      omega
    rw [abs_le]
    push_cast
    constructor <;> linarith
  · have h1 : ((Rat.floor (x + 1 / 2) : Int) : ℚ) ≤ x + 1 / 2 := Rat.le_floor.mp le_rfl
    have h2 : x + 1 / 2 < ((Rat.floor (x + 1 / 2) : Int) : ℚ) + 1 := by
      by_contra hc
      have hc' : (((Rat.floor (x + 1 / 2) + 1 : Int)) : ℚ) ≤ x + 1 / 2 := by
        push_cast
        exact not_lt.mp hc
      have := Rat.le_floor.mpr hc'
      omega
    rw [abs_le]
    constructor <;> linarith

/-- C13, as the code has it: a triple accepted by `get_least_axes` spans a
lattice whose volume `V` is greater than `ε` and for which `|det(L)| / V` rounds
to `m` under `mat_Nint`; when `mat_Nint` rounds to a nearest integer,
`|det(L)| / V` is within one half of `m`. -/
theorem axes_accepted_volume (E : Deps) (vectors : Arr (Vec3 ℚ)) (multi : Int) (cell : Cell)
    (symprec : ℚ) (t : Nat × Nat × Nat)
    (hn : ∀ x : ℚ, |x - (E.mat_Nint x : ℚ)| ≤ 1 / 2)
    (h : axes_accepted E vectors multi cell symprec t = true) :
    symprec < triple_volume cell vectors t ∧
    E.mat_Nint (|mat_get_determinant_d3 cell.lattice| / triple_volume cell vectors t) = multi ∧
    |(|mat_get_determinant_d3 cell.lattice| / triple_volume cell vectors t) - (multi : ℚ)|
      ≤ 1 / 2 := by
  obtain ⟨h1, h2⟩ := (axes_accepted_iff E vectors multi cell symprec t).mp h
  have hv : mat_Dabs (triple_volume cell vectors t) = triple_volume cell vectors t := by
    unfold triple_volume
    exact mat_Dabs_idem _
  rw [hv] at h1
  rw [mat_Dabs_eq_abs] at h2
  refine ⟨h1, h2, ?_⟩
  have := hn (|mat_get_determinant_d3 cell.lattice| / triple_volume cell vectors t)
  rw [h2] at this
  exact this

/-- Witness of the amended C13 on the cell `near_half_cell`: the triple
`(0, 2, 3)` is accepted. -/
theorem axes_accepted_volume_witness :
    axes_accepted near_half_deps (candidate_vectors near_half_deps near_half_cell (1 / 100000)) 2
      near_half_cell (1 / 100000) (0, 2, 3) = true ∧
    (1 / 100000 : ℚ) < triple_volume near_half_cell
      (candidate_vectors near_half_deps near_half_cell (1 / 100000)) (0, 2, 3) :=
  ⟨by decide!, (axes_accepted_volume near_half_deps
    (candidate_vectors near_half_deps near_half_cell (1 / 100000)) 2 near_half_cell
    (1 / 100000) (0, 2, 3) nint_half_away_near (by decide!)).1⟩

/-- C13 fails as stated: on `near_half_cell` (`|det(L)| = 1000`, `m = 2`,
`ε = 10⁻⁵`) `get_least_axes` succeeds with the triple `(0, 2, 3)`, the first
that passes its test, whose volume `500.001` is not within `ε` of
`|det(L)| / m = 500`. -/
theorem axes_accepted_volume_counterexample :
    (get_least_axes near_half_deps (candidate_vectors near_half_deps near_half_cell (1 / 100000))
      2 near_half_cell (1 / 100000)).1 = 1 ∧
    (axis_triples 4).find? (axes_accepted near_half_deps
      (candidate_vectors near_half_deps near_half_cell (1 / 100000)) 2 near_half_cell
      (1 / 100000)) = some (0, 2, 3) ∧
    triple_volume near_half_cell
      (candidate_vectors near_half_deps near_half_cell (1 / 100000)) (0, 2, 3)
        = 500001 / 1000 ∧
    |mat_get_determinant_d3 near_half_cell.lattice| / 2 = 500 ∧
    ¬ (|triple_volume near_half_cell
        (candidate_vectors near_half_deps near_half_cell (1 / 100000)) (0, 2, 3)
      - |mat_get_determinant_d3 near_half_cell.lattice| / 2| ≤ 1 / 100000) := by
  refine ⟨by decide!, by decide!, by decide!, by decide!, by decide!⟩

/-! ## Theorems on `is_overlap` and on the boundary treatment of `trim_cell` -/

/-- The test of `is_overlap` on one axis: the difference `d` is within `ε` of
one of the integers `-1`, `0`, `1`. -/
theorem overlap_axis_iff (d ε : ℚ) :
    (mat_Dabs d < ε ∨ mat_Dabs (mat_Dabs d - 1) < ε) ↔
      (|d - (-1)| < ε ∨ |d| < ε ∨ |d - 1| < ε) := by
  simp only [mat_Dabs_eq_abs]
  constructor
  · rintro (h | h)
    · exact Or.inr (Or.inl h)
    · rcases le_or_lt 0 d with hd | hd
      · rw [abs_of_nonneg hd] at h
        exact Or.inr (Or.inr h)
      · rw [abs_of_neg hd, abs_lt] at h
        left
        rw [abs_lt]
        constructor <;> linarith
  · rintro (h | h | h)
    · rcases le_or_lt 0 d with hd | hd
      · left
        rw [abs_lt] at h
        rw [abs_of_nonneg hd]
        linarith
      · right
        rw [abs_of_neg hd]
        rw [abs_lt] at h ⊢
        constructor <;> linarith
    · exact Or.inl h
    · rcases le_or_lt 0 d with hd | hd
      · right
        rw [abs_of_nonneg hd]
        exact h
      · left
        rw [abs_lt] at h
        rw [abs_of_neg hd]
        linarith

/-- For a difference `d` of two coordinates of `[-1/2, 1/2]`, being within `ε` of
one of `-1`, `0`, `1` is being within `ε` of some integer. -/
theorem overlap_axis_iff_int (d ε : ℚ) (h1 : -1 ≤ d) (h2 : d ≤ 1) :
    (|d - (-1)| < ε ∨ |d| < ε ∨ |d - 1| < ε) ↔ ∃ n : Int, |d - (n : ℚ)| < ε := by
  constructor
  · rintro (h | h | h)
    · exact ⟨-1, by push_cast; exact h⟩
    · exact ⟨0, by push_cast; rw [sub_zero]; exact h⟩
    · exact ⟨1, by push_cast; exact h⟩
  · rintro ⟨n, hn⟩
    rcases lt_trichotomy n 0 with hlt | heq | hgt
    · rcases eq_or_lt_of_le (Int.le_sub_one_of_lt hlt) with he | hl
      · left
        have : n = -1 := by omega
        rw [this] at hn
        push_cast at hn
        exact hn
      · right; left
        have hn2 : (n : ℚ) ≤ -2 := by
          have : n ≤ -2 := by omega
          exact_mod_cast this
        rw [abs_lt] at hn ⊢
        constructor <;> linarith
    · right; left
      rw [heq] at hn
      push_cast at hn
      rw [sub_zero] at hn
      exact hn
    · rcases eq_or_lt_of_le (Int.add_one_le_of_lt hgt) with he | hl
      · right; right
        have : n = 1 := by omega
        rw [this] at hn
        push_cast at hn
        exact hn
      · right; left
        have hn2 : (2 : ℚ) ≤ (n : ℚ) := by
          have : 2 ≤ n := by omega
          exact_mod_cast this
        rw [abs_lt] at hn ⊢
        constructor <;> linarith

/-- The value of `is_overlap` is 1 exactly when the test holds on the three
axes, and 0 otherwise. -/
theorem is_overlap_eq_one_iff (a b : Vec3 ℚ) (ε : ℚ) :
    is_overlap a b ε = 1 ↔
      ∀ k : Fin 3, mat_Dabs (a k - b k) < ε ∨ mat_Dabs (mat_Dabs (a k - b k) - 1) < ε := by
  unfold is_overlap
  constructor
  · intro h
    split at h
    · rename_i hc
      intro k
      fin_cases k
      · exact hc.1
      · exact hc.2.1
      · exact hc.2.2
    · exact absurd h (by decide)
  · intro h
    rw [if_pos ⟨h 0, h 1, h 2⟩]

theorem is_overlap_ne_zero_iff (a b : Vec3 ℚ) (ε : ℚ) :
    is_overlap a b ε ≠ 0 ↔ is_overlap a b ε = 1 := by
  unfold is_overlap
  split <;> simp

/-- C19: `is_overlap` is periodic equality restricted to one cell shift: for
`ε > 0` it returns 1 if and only if on each of the three axes `a_k - b_k` is
strictly within `ε` of one of the integers `-1`, `0`, `1`, and 0 otherwise; it
is symmetric in `a` and `b` and reflexive; and for coordinates in `[-1/2, 1/2]`
it returns 1 if and only if on every axis `a_k - b_k` is strictly within `ε` of
some integer. -/
theorem is_overlap_periodic (a b : Vec3 ℚ) (ε : ℚ) (hε : 0 < ε) :
    (is_overlap a b ε = 1 ↔
      ∀ k : Fin 3, |a k - b k - (-1)| < ε ∨ |a k - b k| < ε ∨ |a k - b k - 1| < ε) ∧
    (is_overlap a b ε = 1 ∨ is_overlap a b ε = 0) ∧
    is_overlap a b ε = is_overlap b a ε ∧
    is_overlap a a ε = 1 ∧
    ((∀ k : Fin 3, -1 / 2 ≤ a k ∧ a k ≤ 1 / 2 ∧ -1 / 2 ≤ b k ∧ b k ≤ 1 / 2) →
      (is_overlap a b ε = 1 ↔ ∀ k : Fin 3, ∃ n : Int, |a k - b k - (n : ℚ)| < ε)) := by
  have hiff : is_overlap a b ε = 1 ↔
      ∀ k : Fin 3, |a k - b k - (-1)| < ε ∨ |a k - b k| < ε ∨ |a k - b k - 1| < ε := by
    rw [is_overlap_eq_one_iff]
    exact forall_congr' fun k => overlap_axis_iff _ _
  refine ⟨hiff, ?_, ?_, ?_, ?_⟩
  · unfold is_overlap
    split
    · exact Or.inl rfl
    · exact Or.inr rfl
  · have hab : ∀ k : Fin 3, (mat_Dabs (a k - b k) < ε ∨ mat_Dabs (mat_Dabs (a k - b k) - 1) < ε)
        ↔ (mat_Dabs (b k - a k) < ε ∨ mat_Dabs (mat_Dabs (b k - a k) - 1) < ε) := by
      intro k
      simp only [mat_Dabs_eq_abs, abs_sub_comm (a k) (b k)]
    unfold is_overlap
    simp only [hab]
  · rw [is_overlap_eq_one_iff]
    intro k
    left
    rw [sub_self, mat_Dabs_eq_abs, abs_zero]
    exact hε
  · intro hr
    rw [hiff]
    refine forall_congr' fun k => ?_
    obtain ⟨h1, h2, h3, h4⟩ := hr k
    exact overlap_axis_iff_int _ _ (by linarith) (by linarith)

/-- Witness of C19 on the two atoms of scenario S2 at tolerance `10⁻⁵`. -/
theorem is_overlap_periodic_witness :
    (0 : ℚ) < 1 / 100000 ∧
    is_overlap (bcc_position 0) (bcc_position 1) (1 / 100000)
      = is_overlap (bcc_position 1) (bcc_position 0) (1 / 100000) ∧
    is_overlap (bcc_position 1) (bcc_position 1) (1 / 100000) = 1 :=
  have key := is_overlap_periodic (bcc_position 0) (bcc_position 1) (1 / 100000) (by norm_num)
  ⟨by norm_num, key.2.2.1,
    (is_overlap_periodic (bcc_position 1) (bcc_position 1) (1 / 100000) (by norm_num)).2.2.2.1⟩

/-- C15, as the code has it: the coordinate of the first member of the class
enters the sum as it is; a member whose coordinate differs from the first
member's by more than `1/2` enters shifted by `+1` when it is negative and by
`-1` otherwise, and a member that differs by at most `1/2` enters as it is.
For coordinates in `[-1/2, 1/2]` the shifted member is within `1/2` of the first
member: shifted by `+1` when it is the smaller of the two, by `-1` when it is
the larger. -/
theorem boundary_term_shift (position : Arr (Vec3 ℚ)) (t0 tj : Nat) (k : Fin 3) :
    boundary_term position t0 t0 k = position t0 k ∧
    (|position t0 k - position tj k| ≤ 1 / 2 →
      boundary_term position t0 tj k = position tj k) ∧
    (1 / 2 < |position t0 k - position tj k| → position tj k < 0 →
      boundary_term position t0 tj k = position tj k + 1) ∧
    (1 / 2 < |position t0 k - position tj k| → 0 ≤ position tj k →
      boundary_term position t0 tj k = position tj k - 1) ∧
    (-1 / 2 ≤ position t0 k → position t0 k ≤ 1 / 2 → -1 / 2 ≤ position tj k →
      position tj k ≤ 1 / 2 → 1 / 2 < |position t0 k - position tj k| →
      (position tj k < position t0 k → boundary_term position t0 tj k = position tj k + 1) ∧
      (position t0 k < position tj k → boundary_term position t0 tj k = position tj k - 1) ∧
      |boundary_term position t0 tj k - position t0 k| < 1 / 2) := by
  have hgen1 : |position t0 k - position tj k| ≤ 1 / 2 →
      boundary_term position t0 tj k = position tj k := by
    intro h
    unfold boundary_term
    rw [mat_Dabs_eq_abs, if_neg (not_lt.mpr h)]
  have hgen2 : 1 / 2 < |position t0 k - position tj k| → position tj k < 0 →
      boundary_term position t0 tj k = position tj k + 1 := by
    intro h hneg
    unfold boundary_term
    rw [mat_Dabs_eq_abs, if_pos h, if_pos hneg]
  have hgen3 : 1 / 2 < |position t0 k - position tj k| → 0 ≤ position tj k →
      boundary_term position t0 tj k = position tj k - 1 := by
    intro h hpos
    unfold boundary_term
    rw [mat_Dabs_eq_abs, if_pos h, if_neg (not_lt.mpr hpos)]
  refine ⟨?_, hgen1, hgen2, hgen3, ?_⟩
  · unfold boundary_term
    rw [sub_self, mat_Dabs_eq_abs, abs_zero, if_neg (by norm_num)]
  · intro h1 h2 h3 h4 hd
    rcases lt_or_le (position tj k) 0 with hneg | hpos
    · have hlt : position tj k < position t0 k := by
        rcases le_or_lt 0 (position t0 k - position tj k) with hs | hs
        · rw [abs_of_nonneg hs] at hd
          linarith
        · rw [abs_of_neg hs] at hd
          linarith
      have hval := hgen2 hd hneg
      refine ⟨fun _ => hval, fun hc => absurd hc (not_lt.mpr (le_of_lt hlt)), ?_⟩
      rw [hval, abs_lt]
      rw [abs_of_nonneg (by linarith)] at hd
      constructor <;> linarith
    · have hlt : position t0 k < position tj k := by
        rcases le_or_lt 0 (position t0 k - position tj k) with hs | hs
        · rw [abs_of_nonneg hs] at hd
          linarith
        · linarith
      have hval := hgen3 hd hpos
      refine ⟨fun hc => absurd hc (not_lt.mpr (le_of_lt hlt)), fun _ => hval, ?_⟩
      rw [hval, abs_lt]
      rw [abs_of_neg (by linarith)] at hd
      constructor <;> linarith

/-- Witness of the amended C15 on `wrap_position`: member 1 (`9/20`) is the
larger one and enters the sum shifted by `-1`. -/
theorem boundary_term_shift_witness :
    (-1 / 2 : ℚ) ≤ wrap_position 0 0 ∧ wrap_position 0 0 ≤ 1 / 2 ∧
    (-1 / 2 : ℚ) ≤ wrap_position 1 0 ∧ wrap_position 1 0 ≤ 1 / 2 ∧
    1 / 2 < |wrap_position 0 0 - wrap_position 1 0| ∧
    wrap_position 0 0 < wrap_position 1 0 ∧
    boundary_term wrap_position 0 1 0 = wrap_position 1 0 - 1 :=
  ⟨by decide!, by decide!, by decide!, by decide!, by decide!, by decide!,
    ((boundary_term_shift wrap_position 0 1 0).2.2.2.2 (by decide!) (by decide!) (by decide!)
      (by decide!) (by decide!)).2.1 (by decide!)⟩

/-- C15 fails as stated: in `wrap_position` the members 0 (`-2/5`) and 1
(`9/20`) differ by more than `1/2`; the smaller coordinate, `-2/5`, enters the
sum as it is and not shifted by `+1`, while the larger one, `9/20`, enters
shifted by `-1`, so the pair contributes `-19/20` and not `21/20`. -/
theorem boundary_term_shift_counterexample :
    1 / 2 < mat_Dabs (wrap_position 0 0 - wrap_position 1 0) ∧
    wrap_position 0 0 < wrap_position 1 0 ∧
    boundary_term wrap_position 0 0 0 = -2 / 5 ∧
    boundary_term wrap_position 0 0 0 ≠ wrap_position 0 0 + 1 ∧
    boundary_term wrap_position 0 1 0 = -11 / 20 ∧
    boundary_term wrap_position 0 1 0 ≠ wrap_position 1 0 ∧
    boundary_term wrap_position 0 0 0 + boundary_term wrap_position 0 1 0
      ≠ (wrap_position 0 0 + 1) + wrap_position 1 0 := by
  refine ⟨by decide!, by decide!, by decide!, by decide!, by decide!, by decide!, by decide!⟩

/-! ## The extent of the symbol written by `spg_get_international` -/

theorem Arr.set_set {α : Type} (a : Arr α) (i : Nat) (v w : α) :
    (a.set i v).set i w = a.set i w := by
  funext n
  simp only [Arr.set]
  split <;> rfl

theorem Arr.set_same {α : Type} (a : Arr α) (i : Nat) (v : α) : (a.set i v) i = v := by
  simp [Arr.set]

theorem Arr.set_other {α : Type} (a : Arr α) (i n : Nat) (v : α) (h : n ≠ i) :
    (a.set i v) n = a n := by
  simp [Arr.set, h]

/-- The inner loop of `trim_cell` over the members of a class, in closed form. -/
theorem trim_inner_loop (te : Nat → Nat) (bt : Nat → Fin 3 → ℚ) (st1 : TrimState) (n : Nat) :
    (forLoop (n : Int) (fun j (s : TrimState) =>
        { s with
          position := s.position.set s.count (fun k => s.position s.count k + bt j k)
          check_table := s.check_table.set (te j) 1 }) st1).count = st1.count ∧
    (forLoop (n : Int) (fun j (s : TrimState) =>
        { s with
          position := s.position.set s.count (fun k => s.position s.count k + bt j k)
          check_table := s.check_table.set (te j) 1 }) st1).types = st1.types ∧
    (forLoop (n : Int) (fun j (s : TrimState) =>
        { s with
          position := s.position.set s.count (fun k => s.position s.count k + bt j k)
          check_table := s.check_table.set (te j) 1 }) st1).check_table
      = (fun x => if x ∈ (List.range n).map te then 1 else st1.check_table x) ∧
    (forLoop (n : Int) (fun j (s : TrimState) =>
        { s with
          position := s.position.set s.count (fun k => s.position s.count k + bt j k)
          check_table := s.check_table.set (te j) 1 }) st1).position
      = st1.position.set st1.count
          (fun k => st1.position st1.count k + ((List.range n).map fun j => bt j k).sum) := by
  induction n with
  | zero =>
    refine ⟨rfl, rfl, ?_, ?_⟩
    · funext x
      simp [forLoop]
    · funext x
      simp only [forLoop, Int.toNat_ofNat, List.range_zero, List.foldl_nil, List.map_nil,
        List.sum_nil, add_zero, Arr.set]
      split
      · rename_i h
        rw [h]
      · rfl
  | succ n ih =>
    obtain ⟨ih1, ih2, ih3, ih4⟩ := ih
    rw [forLoop_succ]
    refine ⟨ih1, ih2, ?_, ?_⟩
    · simp only [ih3]
      funext x
      simp only [Arr.set, List.range_succ, List.map_append, List.map_cons, List.map_nil,
        List.mem_append, List.mem_singleton]
      by_cases h1 : x = te n
      · simp [h1]
      · by_cases h2 : x ∈ (List.range n).map te
        · simp [h1, h2]
        · simp [h1, h2]
    · have hsum : ∀ k, ((List.range (n + 1)).map fun j => bt j k).sum
          = ((List.range n).map fun j => bt j k).sum + bt n k := by
        intro k
        simp [List.range_succ, List.sum_append]
      simp only [ih1, ih4, hsum]
      rw [Arr.set_set]
      simp only [Arr.set_same, add_assoc]

/-- A pass of the copying loop for an atom not yet consumed: it emits one atom
with the species of atom `i` and the reduced average of the class, and marks
the members of the class as consumed. -/
theorem trim_atom_open (E : Deps) (cell : Cell) (position : Arr (Vec3 ℚ)) (tol symprec : ℚ)
    (ratio : Int) (i : Nat) (st : TrimState) (h : st.check_table i = 0) :
    (trim_atom E cell position tol symprec ratio i st).count = st.count + 1 ∧
    (trim_atom E cell position tol symprec ratio i st).types
      = st.types.set st.count (cell.types i) ∧
    (trim_atom E cell position tol symprec ratio i st).position
      = st.position.set st.count (class_position E position cell.size tol symprec ratio i) ∧
    (trim_atom E cell position tol symprec ratio i st).check_table
      = (fun x => if x ∈ class_members position cell.size tol ratio i then 1
          else st.check_table x) := by
  obtain ⟨h1, h2, h3, h4⟩ := trim_inner_loop (table_entry position cell.size tol i)
    (fun j k => boundary_term position (table_entry position cell.size tol i 0)
      (table_entry position cell.size tol i j) k)
    { st with types := st.types.set st.count (cell.types i)
              position := st.position.set st.count (fun _ => 0) } ratio.toNat
  rw [← forLoop_toNat] at h1 h2 h3 h4
  simp only [trim_atom, if_pos h]
  simp only at h1 h2 h3 h4
  refine ⟨?_, ?_, ?_, ?_⟩
  · rw [h1]
  · rw [h2]
  · rw [h1, h4, Arr.set_set, Arr.set_set]
    simp only [Arr.set_same, zero_add]
    rfl
  · rw [h3]
    rfl

theorem trim_atom_skip (E : Deps) (cell : Cell) (position : Arr (Vec3 ℚ)) (tol symprec : ℚ)
    (ratio : Int) (i : Nat) (st : TrimState) (h : st.check_table i ≠ 0) :
    trim_atom E cell position tol symprec ratio i st = st := by
  unfold trim_atom
  rw [if_neg h]

theorem trim_pass_zero (E : Deps) (cell : Cell) (position : Arr (Vec3 ℚ)) (tol symprec : ℚ)
    (ratio : Int) (st0 : TrimState) :
    trim_pass E cell position tol symprec ratio st0 0 = st0 := by
  simp [trim_pass, forLoop]

theorem trim_pass_succ (E : Deps) (cell : Cell) (position : Arr (Vec3 ℚ)) (tol symprec : ℚ)
    (ratio : Int) (st0 : TrimState) (n : Nat) :
    trim_pass E cell position tol symprec ratio st0 (n + 1)
      = trim_atom E cell position tol symprec ratio n
          (trim_pass E cell position tol symprec ratio st0 n) := by
  unfold trim_pass
  exact forLoop_succ n _ st0

/-- The copying loop never lowers `count`, and never changes an atom already
emitted. -/
theorem trim_pass_mono (E : Deps) (cell : Cell) (position : Arr (Vec3 ℚ)) (tol symprec : ℚ)
    (ratio : Int) (st0 : TrimState) (n d : Nat) :
    (trim_pass E cell position tol symprec ratio st0 n).count
      ≤ (trim_pass E cell position tol symprec ratio st0 (n + d)).count ∧
    ∀ c, c < (trim_pass E cell position tol symprec ratio st0 n).count →
      (trim_pass E cell position tol symprec ratio st0 (n + d)).types c
        = (trim_pass E cell position tol symprec ratio st0 n).types c ∧
      (trim_pass E cell position tol symprec ratio st0 (n + d)).position c
        = (trim_pass E cell position tol symprec ratio st0 n).position c := by
  induction d with
  | zero => exact ⟨le_rfl, fun c _ => ⟨rfl, rfl⟩⟩
  | succ d ih =>
    obtain ⟨ih1, ih2⟩ := ih
    rw [← Nat.add_assoc, trim_pass_succ]
    by_cases h : (trim_pass E cell position tol symprec ratio st0 (n + d)).check_table (n + d) = 0
    · obtain ⟨h1, h2, h3, _⟩ := trim_atom_open E cell position tol symprec ratio (n + d) _ h
      refine ⟨by omega, fun c hc => ?_⟩
      have hne : c ≠ (trim_pass E cell position tol symprec ratio st0 (n + d)).count := by omega
      rw [h2, h3, Arr.set_other _ _ _ _ hne, Arr.set_other _ _ _ _ hne]
      exact ih2 c hc
    · rw [trim_atom_skip E cell position tol symprec ratio (n + d) _ h]
      exact ⟨ih1, ih2⟩

/-- The copying loop never writes at index `count` or above. -/
theorem trim_pass_frame (E : Deps) (cell : Cell) (position : Arr (Vec3 ℚ)) (tol symprec : ℚ)
    (ratio : Int) (st0 : TrimState) (n : Nat) :
    ∀ c, (trim_pass E cell position tol symprec ratio st0 n).count ≤ c →
      (trim_pass E cell position tol symprec ratio st0 n).types c = st0.types c ∧
      (trim_pass E cell position tol symprec ratio st0 n).position c = st0.position c := by
  induction n with
  | zero =>
    intro c _
    rw [trim_pass_zero]
    exact ⟨rfl, rfl⟩
  | succ n ih =>
    intro c hc
    rw [trim_pass_succ] at hc ⊢
    by_cases h : (trim_pass E cell position tol symprec ratio st0 n).check_table n = 0
    · obtain ⟨h1, h2, h3, _⟩ := trim_atom_open E cell position tol symprec ratio n _ h
      rw [h1] at hc
      have hne : c ≠ (trim_pass E cell position tol symprec ratio st0 n).count := by omega
      rw [h2, h3, Arr.set_other _ _ _ _ hne, Arr.set_other _ _ _ _ hne]
      exact ih c (by omega)
    · rw [trim_atom_skip E cell position tol symprec ratio n _ h] at hc ⊢
      exact ih c hc

/-- The atom emitted by the pass that finds atom `i` not yet consumed keeps the
species of atom `i` and the reduced average of its class until the loop ends. -/
theorem trim_pass_opener (E : Deps) (cell : Cell) (position : Arr (Vec3 ℚ)) (tol symprec : ℚ)
    (ratio : Int) (st0 : TrimState) (i n : Nat) (hin : i < n)
    (h : (trim_pass E cell position tol symprec ratio st0 i).check_table i = 0) :
    (trim_pass E cell position tol symprec ratio st0 i).count
      < (trim_pass E cell position tol symprec ratio st0 n).count ∧
    (trim_pass E cell position tol symprec ratio st0 n).types
        (trim_pass E cell position tol symprec ratio st0 i).count = cell.types i ∧
    (trim_pass E cell position tol symprec ratio st0 n).position
        (trim_pass E cell position tol symprec ratio st0 i).count
      = class_position E position cell.size tol symprec ratio i := by
  obtain ⟨h1, h2, h3, _⟩ := trim_atom_open E cell position tol symprec ratio i _ h
  rw [← trim_pass_succ] at h1 h2 h3
  obtain ⟨m1, m2⟩ := trim_pass_mono E cell position tol symprec ratio st0 (i + 1) (n - (i + 1))
  rw [show i + 1 + (n - (i + 1)) = n by omega] at m1 m2
  obtain ⟨m3, m4⟩ := m2 (trim_pass E cell position tol symprec ratio st0 i).count (by omega)
  refine ⟨by omega, ?_, ?_⟩
  · rw [m3, h2, Arr.set_same]
  · rw [m4, h3, Arr.set_same]

/-- Every atom emitted by the copying loop was emitted by a pass that found its
atom not yet consumed. -/
theorem trim_pass_emitted (E : Deps) (cell : Cell) (position : Arr (Vec3 ℚ)) (tol symprec : ℚ)
    (ratio : Int) (st0 : TrimState) (n : Nat) :
    ∀ c, st0.count ≤ c → c < (trim_pass E cell position tol symprec ratio st0 n).count →
      ∃ i, i < n ∧ (trim_pass E cell position tol symprec ratio st0 i).check_table i = 0 ∧
        (trim_pass E cell position tol symprec ratio st0 i).count = c := by
  induction n with
  | zero =>
    intro c h0 hc
    rw [trim_pass_zero] at hc
    omega
  | succ n ih =>
    intro c h0 hc
    rw [trim_pass_succ] at hc
    by_cases h : (trim_pass E cell position tol symprec ratio st0 n).check_table n = 0
    · obtain ⟨h1, _, _, _⟩ := trim_atom_open E cell position tol symprec ratio n _ h
      rw [h1] at hc
      by_cases hlast : c = (trim_pass E cell position tol symprec ratio st0 n).count
      · exact ⟨n, Nat.lt_succ_self n, h, hlast.symm⟩
      · obtain ⟨i, hi, hi2, hi3⟩ := ih c h0 (by omega)
        exact ⟨i, Nat.lt_succ_of_lt hi, hi2, hi3⟩
    · rw [trim_atom_skip E cell position tol symprec ratio n _ h] at hc
      obtain ⟨i, hi, hi2, hi3⟩ := ih c h0 hc
      exact ⟨i, Nat.lt_succ_of_lt hi, hi2, hi3⟩

/-- The function `trim_cell` in terms of the state of its copying loop. -/
theorem trim_cell_eq (E : Deps) (primitive cell : Cell) (symprec : ℚ)
    (h : primitive.size ≠ 0) :
    trim_cell E primitive cell symprec
      = some ({ primitive with
                position := (trim_state E primitive cell symprec cell.size.toNat).position
                types := (trim_state E primitive cell symprec cell.size.toNat).types },
              trim_diagnostics E primitive cell symprec) := by
  unfold trim_cell
  rw [if_neg h]
  rfl

/-! ## The diagnostics of `trim_cell` do not change what is returned -/

theorem pass_openers_succ (E : Deps) (cell : Cell) (position : Arr (Vec3 ℚ)) (tol symprec : ℚ)
    (ratio : Int) (st0 : TrimState) (n : Nat) :
    pass_openers E cell position tol symprec ratio st0 (n + 1)
      = pass_openers E cell position tol symprec ratio st0 n ++
          (if (trim_pass E cell position tol symprec ratio st0 n).check_table n = 0 then [n]
            else []) := by
  unfold pass_openers
  rw [List.range_succ, List.filter_append]
  congr 1
  by_cases h : (trim_pass E cell position tol symprec ratio st0 n).check_table n = 0
  · simp [h]
  · simp [h]

/-- The value of `count` is the number of atoms found not yet consumed so far. -/
theorem trim_pass_count (E : Deps) (cell : Cell) (position : Arr (Vec3 ℚ)) (tol symprec : ℚ)
    (ratio : Int) (st0 : TrimState) (n : Nat) :
    (trim_pass E cell position tol symprec ratio st0 n).count
      = st0.count + (pass_openers E cell position tol symprec ratio st0 n).length := by
  induction n with
  | zero => simp [trim_pass_zero, pass_openers]
  | succ n ih =>
    rw [pass_openers_succ, trim_pass_succ]
    by_cases h : (trim_pass E cell position tol symprec ratio st0 n).check_table n = 0
    · obtain ⟨h1, _, _, _⟩ := trim_atom_open E cell position tol symprec ratio n _ h
      rw [h1, ih, if_pos h, List.length_append, List.length_singleton]
      omega
    · rw [trim_atom_skip E cell position tol symprec ratio n _ h, ih, if_neg h,
        List.append_nil]

/-- The `c`-th atom emitted by the copying loop has the species of the `c`-th
atom found not yet consumed, and the reduced average of the class it opens. -/
theorem trim_pass_emitted_by (E : Deps) (cell : Cell) (position : Arr (Vec3 ℚ))
    (tol symprec : ℚ) (ratio : Int) (st0 : TrimState) (h0 : st0.count = 0) (n : Nat) :
    ∀ c, c < (pass_openers E cell position tol symprec ratio st0 n).length →
      (trim_pass E cell position tol symprec ratio st0 n).types c
        = cell.types ((pass_openers E cell position tol symprec ratio st0 n).getD c 0) ∧
      (trim_pass E cell position tol symprec ratio st0 n).position c
        = class_position E position cell.size tol symprec ratio
            ((pass_openers E cell position tol symprec ratio st0 n).getD c 0) := by
  induction n with
  | zero =>
    intro c hc
    simp [pass_openers] at hc
  | succ n ih =>
    intro c hc
    have hcount := trim_pass_count E cell position tol symprec ratio st0 n
    rw [h0, Nat.zero_add] at hcount
    rw [pass_openers_succ] at hc ⊢
    rw [trim_pass_succ]
    by_cases h : (trim_pass E cell position tol symprec ratio st0 n).check_table n = 0
    · obtain ⟨_, h2, h3, _⟩ := trim_atom_open E cell position tol symprec ratio n _ h
      rw [if_pos h] at hc ⊢
      rw [List.length_append, List.length_singleton] at hc
      rw [h2, h3, hcount]
      by_cases hlt : c < (pass_openers E cell position tol symprec ratio st0 n).length
      · rw [Arr.set_other _ _ _ _ (Nat.ne_of_lt hlt), Arr.set_other _ _ _ _ (Nat.ne_of_lt hlt),
          List.getD_append _ _ _ _ hlt]
        exact ih c hlt
      · have heq : c = (pass_openers E cell position tol symprec ratio st0 n).length := by omega
        rw [heq, Arr.set_same, Arr.set_same, List.getD_append_right _ _ _ _ le_rfl, Nat.sub_self]
        exact ⟨rfl, rfl⟩
    · rw [if_neg h, List.append_nil] at hc ⊢
      rw [trim_atom_skip E cell position tol symprec ratio n _ h]
      exact ih c hc

/-- The species of the input cell do not enter the overlap test, the marks of
consumed atoms, the positions or `count`: two cells that differ in their
species only go through the copying loop alike. -/
theorem trim_pass_types_irrelevant (E : Deps) (cell : Cell) (types' : Arr Int)
    (position : Arr (Vec3 ℚ)) (tol symprec : ℚ) (ratio : Int) (st0 : TrimState) (n : Nat) :
    (trim_pass E { cell with types := types' } position tol symprec ratio st0 n).check_table
      = (trim_pass E cell position tol symprec ratio st0 n).check_table ∧
    (trim_pass E { cell with types := types' } position tol symprec ratio st0 n).count
      = (trim_pass E cell position tol symprec ratio st0 n).count ∧
    (trim_pass E { cell with types := types' } position tol symprec ratio st0 n).position
      = (trim_pass E cell position tol symprec ratio st0 n).position := by
  induction n with
  | zero => simp [trim_pass_zero]
  | succ n ih =>
    obtain ⟨ih1, ih2, ih3⟩ := ih
    rw [trim_pass_succ, trim_pass_succ]
    by_cases h : (trim_pass E cell position tol symprec ratio st0 n).check_table n = 0
    · have h' : (trim_pass E { cell with types := types' } position tol symprec ratio st0
          n).check_table n = 0 := by rw [ih1]; exact h
      obtain ⟨a1, _, a3, a4⟩ := trim_atom_open E cell position tol symprec ratio n _ h
      obtain ⟨b1, _, b3, b4⟩ :=
        trim_atom_open E { cell with types := types' } position tol symprec ratio n _ h'
      refine ⟨?_, ?_, ?_⟩
      · rw [a4, b4, ih1]
      · rw [a1, b1, ih2]
      · rw [a3, b3, ih2, ih3]
    · have h' : (trim_pass E { cell with types := types' } position tol symprec ratio st0
          n).check_table n ≠ 0 := by rw [ih1]; exact h
      rw [trim_atom_skip E cell position tol symprec ratio n _ h,
        trim_atom_skip E { cell with types := types' } position tol symprec ratio n _ h']
      exact ⟨ih1, ih2, ih3⟩

/-- C20: species in `trim_cell`.  The overlap rows, the marks of consumed atoms
and `count` are the same for any other assignment `types'` of species to the
atoms: the test that forms the classes compares positions only.  The `c`-th
emitted atom receives the species of the `c`-th atom found not yet consumed,
which opens its class; so every species of an emitted atom is the species of an
input atom, and with the species `types'` the emitted atom receives `types'` of
the same opening atom, whatever the species of the other members are. -/
theorem trim_cell_species (E : Deps) (primitive cell : Cell) (symprec : ℚ) (types' : Arr Int)
    (hsz : primitive.size ≠ 0) :
    (∀ i, overlap_row (trim_position E primitive { cell with types := types' } symprec)
        cell.size (trim_tol primitive { cell with types := types' } symprec) i
      = overlap_row (trim_position E primitive cell symprec) cell.size
        (trim_tol primitive cell symprec) i) ∧
    trim_openers E primitive { cell with types := types' } symprec
      = trim_openers E primitive cell symprec ∧
    ∃ out err out' err',
      trim_cell E primitive cell symprec = some (out, err) ∧
      trim_cell E primitive { cell with types := types' } symprec = some (out', err') ∧
      (trim_state E primitive cell symprec cell.size.toNat).count
        = (trim_openers E primitive cell symprec).length ∧
      (∀ c, c < (trim_openers E primitive cell symprec).length →
        (trim_openers E primitive cell symprec).getD c 0 < cell.size.toNat ∧
        (trim_state E primitive cell symprec
          ((trim_openers E primitive cell symprec).getD c 0)).check_table
            ((trim_openers E primitive cell symprec).getD c 0) = 0 ∧
        out.types c = cell.types ((trim_openers E primitive cell symprec).getD c 0) ∧
        out'.types c = types' ((trim_openers E primitive cell symprec).getD c 0)) := by
  have hstate : ∀ n, (trim_state E primitive { cell with types := types' } symprec n).check_table
      = (trim_state E primitive cell symprec n).check_table := fun n =>
    (trim_pass_types_irrelevant E cell types' (trim_position E primitive cell symprec)
      (trim_tol primitive cell symprec) symprec (trim_ratio primitive cell)
      { position := primitive.position, types := primitive.types,
        check_table := fun _ => 0, count := 0 } n).1
  have hopen : trim_openers E primitive { cell with types := types' } symprec
      = trim_openers E primitive cell symprec := by
    unfold trim_openers
    simp only [hstate]
  refine ⟨fun i => rfl, hopen, _, _, _, _, trim_cell_eq E primitive cell symprec hsz,
    trim_cell_eq E primitive { cell with types := types' } symprec hsz, ?_, ?_⟩
  · have := trim_pass_count E cell (trim_position E primitive cell symprec)
      (trim_tol primitive cell symprec) symprec (trim_ratio primitive cell)
      { position := primitive.position, types := primitive.types,
        check_table := fun _ => 0, count := 0 } cell.size.toNat
    simpa [trim_state, trim_openers, pass_openers] using this
  · intro c hc
    have hmem : (trim_openers E primitive cell symprec).getD c 0
        ∈ trim_openers E primitive cell symprec := by
      rw [List.getD_eq_getElem _ _ hc]
      exact List.getElem_mem hc
    have hmem' := hmem
    unfold trim_openers at hmem'
    rw [List.mem_filter, List.mem_range] at hmem'
    have e1 := (trim_pass_emitted_by E cell (trim_position E primitive cell symprec)
      (trim_tol primitive cell symprec) symprec (trim_ratio primitive cell)
      { position := primitive.position, types := primitive.types,
        check_table := fun _ => 0, count := 0 } rfl cell.size.toNat c hc).1
    have hc' : c < (trim_openers E primitive { cell with types := types' } symprec).length := by
      rw [hopen]; exact hc
    have e2 := (trim_pass_emitted_by E { cell with types := types' }
      (trim_position E primitive { cell with types := types' } symprec)
      (trim_tol primitive { cell with types := types' } symprec) symprec
      (trim_ratio primitive { cell with types := types' })
      { position := primitive.position, types := primitive.types,
        check_table := fun _ => 0, count := 0 } rfl cell.size.toNat c hc').1
    refine ⟨hmem'.1, by simpa using hmem'.2, e1, ?_⟩
    have e3 : (trim_pass E { cell with types := types' }
        (trim_position E primitive { cell with types := types' } symprec)
        (trim_tol primitive { cell with types := types' } symprec) symprec
        (trim_ratio primitive { cell with types := types' })
        { position := primitive.position, types := primitive.types,
          check_table := fun _ => 0, count := 0 } cell.size.toNat).types c
        = types' ((trim_openers E primitive { cell with types := types' } symprec).getD c 0) :=
      e2
    rw [hopen] at e3
    exact e3

/-- Witness of C20 on the cell of scenario S2 with two species: the class opened
by atom 0 has the members 0 and 1, of species 1 and 2; one atom is emitted, of
species 1. -/
theorem trim_cell_species_witness :
    (trimmed_input bcc_deps mixed_cell (1 / 100000)).size ≠ 0 ∧
    trim_openers bcc_deps (trimmed_input bcc_deps mixed_cell (1 / 100000)) mixed_cell
      (1 / 100000) = [0] ∧
    class_members
      (trim_position bcc_deps (trimmed_input bcc_deps mixed_cell (1 / 100000)) mixed_cell
        (1 / 100000))
      mixed_cell.size (trim_tol (trimmed_input bcc_deps mixed_cell (1 / 100000)) mixed_cell
        (1 / 100000))
      (trim_ratio (trimmed_input bcc_deps mixed_cell (1 / 100000)) mixed_cell) 0 = [0, 1] ∧
    mixed_cell.types 1 = 2 ∧
    ∃ out err, trim_cell bcc_deps (trimmed_input bcc_deps mixed_cell (1 / 100000)) mixed_cell
        (1 / 100000) = some (out, err) ∧ out.types 0 = 1 := by
  obtain ⟨_, _, out, err, _, _, h1, _, _, h4⟩ :=
    trim_cell_species bcc_deps (trimmed_input bcc_deps mixed_cell (1 / 100000)) mixed_cell
      (1 / 100000) bcc_types (by decide)
  have hg : (trim_openers bcc_deps (trimmed_input bcc_deps mixed_cell (1 / 100000)) mixed_cell
      (1 / 100000)).getD 0 0 = 0 := by decide!
  have h := (h4 0 (by decide!)).2.2.1
  rw [hg] at h
  exact ⟨by decide, by decide!, by decide!, by decide, out, err, h1, h⟩

/-! ## Averaging in `trim_cell` -/

/-- A member that overlaps the first member of its class at a tolerance
`τ ≤ 1/2`, both with coordinates in `[-1/2, 1/2]`, enters the sum within `τ` of
the first member's coordinate. -/
theorem boundary_term_near (position : Arr (Vec3 ℚ)) (t0 tj : Nat) (k : Fin 3) (τ : ℚ)
    (hτ : τ ≤ 1 / 2)
    (h0l : -1 / 2 ≤ position t0 k) (h0u : position t0 k ≤ 1 / 2)
    (hjl : -1 / 2 ≤ position tj k) (hju : position tj k ≤ 1 / 2)
    (hov : mat_Dabs (position t0 k - position tj k) < τ ∨
      mat_Dabs (mat_Dabs (position t0 k - position tj k) - 1) < τ) :
    |boundary_term position t0 tj k - position t0 k| < τ := by
  simp only [mat_Dabs_eq_abs] at hov
  unfold boundary_term
  rw [mat_Dabs_eq_abs]
  by_cases hd : |position t0 k - position tj k| > 1 / 2
  · rw [if_pos hd]
    have hov2 : |(|position t0 k - position tj k|) - 1| < τ := by
      rcases hov with h | h
      · exfalso
        have : |position t0 k - position tj k| < 1 / 2 := lt_of_lt_of_le h hτ
        exact absurd hd (not_lt.mpr (le_of_lt this))
      · exact h
    rcases lt_or_le (position tj k) 0 with hneg | hpos
    · rw [if_pos hneg]
      have hs : 0 ≤ position t0 k - position tj k := by
        by_contra hc
        rw [abs_of_neg (not_le.mp hc)] at hd
        linarith
      rw [abs_of_nonneg hs] at hov2
      rw [abs_lt] at hov2 ⊢
      constructor <;> linarith [hov2.1, hov2.2]
    · rw [if_neg (not_lt.mpr hpos)]
      have hs : position t0 k - position tj k < 0 := by
        by_contra hc
        rw [abs_of_nonneg (not_lt.mp hc)] at hd
        linarith
      rw [abs_of_neg hs] at hov2
      rw [abs_lt] at hov2 ⊢
      constructor <;> linarith [hov2.1, hov2.2]
  · rw [if_neg hd]
    have hd' : |position t0 k - position tj k| ≤ 1 / 2 := not_lt.mp hd
    rcases hov with h | h
    · rw [abs_sub_comm]
      exact h
    · exfalso
      rw [abs_lt] at h
      linarith [h.1, h.2]

/-- The sum of `n + 1` terms below `b` is below `(n + 1) * b`. -/
theorem sum_range_lt (f : Nat → ℚ) (b : ℚ) (n : Nat) (h : ∀ j, j < n + 1 → f j < b) :
    ((List.range (n + 1)).map f).sum < ((n + 1 : Nat) : ℚ) * b := by
  induction n with
  | zero =>
    have := h 0 (by omega)
    simpa [List.range_succ] using this
  | succ n ih =>
    have ih' := ih (fun j hj => h j (by omega))
    have hlast := h (n + 1) (by omega)
    rw [List.range_succ, List.map_append, List.sum_append]
    simp only [List.map_cons, List.map_nil, List.sum_cons, List.sum_nil, add_zero]
    push_cast at ih' ⊢
    linarith

/-- The sum of `n + 1` terms above `b` is above `(n + 1) * b`. -/
theorem sum_range_gt (f : Nat → ℚ) (b : ℚ) (n : Nat) (h : ∀ j, j < n + 1 → b < f j) :
    ((n + 1 : Nat) : ℚ) * b < ((List.range (n + 1)).map f).sum := by
  induction n with
  | zero =>
    have := h 0 (by omega)
    simpa [List.range_succ] using this
  | succ n ih =>
    have ih' := ih (fun j hj => h j (by omega))
    have hlast := h (n + 1) (by omega)
    rw [List.range_succ, List.map_append, List.sum_append]
    simp only [List.map_cons, List.map_nil, List.sum_cons, List.sum_nil, add_zero]
    push_cast at ih' ⊢
    linarith

/-- The average of `n ≥ 1` terms, each within `τ` of `c`, is within `τ` of `c`. -/
theorem average_near (f : Nat → ℚ) (c τ : ℚ) (n : Nat) (hn : 1 ≤ n)
    (h : ∀ j, j < n → |f j - c| < τ) :
    |((List.range n).map f).sum / (n : ℚ) - c| < τ := by
  obtain ⟨m, rfl⟩ : ∃ m, n = m + 1 := ⟨n - 1, by omega⟩
  have hlt := sum_range_lt f (c + τ) m (fun j hj => by
    have := (abs_lt.mp (h j hj)).2
    linarith)
  have hgt := sum_range_gt f (c - τ) m (fun j hj => by
    have := (abs_lt.mp (h j hj)).1
    linarith)
  have hpos : (0 : ℚ) < ((m + 1 : Nat) : ℚ) := by positivity
  rw [abs_lt]
  constructor
  · have : c - τ < ((List.range (m + 1)).map f).sum / ((m + 1 : Nat) : ℚ) := by
      rw [lt_div_iff₀ hpos]
      linarith
    linarith
  · have : ((List.range (m + 1)).map f).sum / ((m + 1 : Nat) : ℚ) < c + τ := by
      rw [div_lt_iff₀ hpos]
      linarith
    linarith

/-- The rows of the overlap table list their atoms in increasing order. -/
theorem overlap_row_sorted (position : Arr (Vec3 ℚ)) (size : Int) (tol : ℚ) (i : Nat) :
    (overlap_row position size tol i).Pairwise (· < ·) :=
  (List.pairwise_lt_range size.toNat).filter _

/-- The first entry of a row of the overlap table is its lowest atom. -/
theorem table_entry_zero_le (position : Arr (Vec3 ℚ)) (size : Int) (tol : ℚ) (i j : Nat)
    (hj : j < (overlap_row position size tol i).length) :
    table_entry position size tol i 0 ≤ table_entry position size tol i j := by
  unfold table_entry
  have h0 : 0 < (overlap_row position size tol i).length := by omega
  rw [List.getD_eq_getElem _ _ hj, List.getD_eq_getElem _ _ h0]
  rcases Nat.eq_zero_or_pos j with hz | hp
  · subst hz
    exact le_rfl
  · exact le_of_lt (List.pairwise_iff_getElem.mp (overlap_row_sorted position size tol i)
      0 j h0 hj hp)

/-- C18: averaging in `trim_cell` is correct modulo 1.  For the class opened by
atom `i`, of `ratio ≥ 1` members taken from row `i` of the overlap table, whose
members all overlap the first one at the tolerance `τ = ε·ratio ≤ 1/2` and have
their reduced coordinates in `[-1/2, 1/2]`: the first member is the lowest-index
member, and each coordinate emitted for the class differs by an integer from a
value that is within `τ` of that member's coordinate. -/
theorem trim_cell_average (E : Deps) (primitive cell : Cell) (symprec : ℚ) (i : Nat)
    (hsz : primitive.size ≠ 0) (hi : i < cell.size.toNat)
    (hopen : (trim_state E primitive cell symprec i).check_table i = 0)
    (hτ : trim_tol primitive cell symprec ≤ 1 / 2)
    (hratio : 1 ≤ trim_ratio primitive cell)
    (hrow : (trim_ratio primitive cell).toNat
      ≤ (overlap_row (trim_position E primitive cell symprec) cell.size
          (trim_tol primitive cell symprec) i).length)
    (hrange : ∀ j ∈ class_members (trim_position E primitive cell symprec) cell.size
        (trim_tol primitive cell symprec) (trim_ratio primitive cell) i,
      ∀ k : Fin 3, -1 / 2 ≤ trim_position E primitive cell symprec j k ∧
        trim_position E primitive cell symprec j k ≤ 1 / 2)
    (hov : ∀ j ∈ class_members (trim_position E primitive cell symprec) cell.size
        (trim_tol primitive cell symprec) (trim_ratio primitive cell) i,
      is_overlap
        (trim_position E primitive cell symprec
          (table_entry (trim_position E primitive cell symprec) cell.size
            (trim_tol primitive cell symprec) i 0))
        (trim_position E primitive cell symprec j) (trim_tol primitive cell symprec) = 1) :
    ∃ out err, trim_cell E primitive cell symprec = some (out, err) ∧
      table_entry (trim_position E primitive cell symprec) cell.size
          (trim_tol primitive cell symprec) i 0
        ∈ class_members (trim_position E primitive cell symprec) cell.size
          (trim_tol primitive cell symprec) (trim_ratio primitive cell) i ∧
      (∀ j ∈ class_members (trim_position E primitive cell symprec) cell.size
          (trim_tol primitive cell symprec) (trim_ratio primitive cell) i,
        table_entry (trim_position E primitive cell symprec) cell.size
          (trim_tol primitive cell symprec) i 0 ≤ j) ∧
      ∀ k : Fin 3, ∃ (a : ℚ) (n : Int),
        out.position (trim_state E primitive cell symprec i).count k = a - (n : ℚ) ∧
        |a - trim_position E primitive cell symprec
            (table_entry (trim_position E primitive cell symprec) cell.size
              (trim_tol primitive cell symprec) i 0) k|
          < trim_tol primitive cell symprec := by
  have hmem : ∀ j, j < (trim_ratio primitive cell).toNat →
      table_entry (trim_position E primitive cell symprec) cell.size
          (trim_tol primitive cell symprec) i j
        ∈ class_members (trim_position E primitive cell symprec) cell.size
          (trim_tol primitive cell symprec) (trim_ratio primitive cell) i := by
    intro j hj
    unfold class_members
    exact List.mem_map.mpr ⟨j, List.mem_range.mpr hj, rfl⟩
  have hpos1 : 0 < (trim_ratio primitive cell).toNat := by omega
  have h0mem := hmem 0 hpos1
  obtain ⟨_, _, hposn⟩ := trim_pass_opener E cell (trim_position E primitive cell symprec)
    (trim_tol primitive cell symprec) symprec (trim_ratio primitive cell)
    { position := primitive.position, types := primitive.types,
      check_table := fun _ => 0, count := 0 } i cell.size.toNat hi hopen
  refine ⟨_, _, trim_cell_eq E primitive cell symprec hsz, h0mem, ?_, ?_⟩
  · intro j hj
    unfold class_members at hj
    obtain ⟨c, hc, rfl⟩ := List.mem_map.mp hj
    exact table_entry_zero_le _ _ _ _ _ (by have := List.mem_range.mp hc; omega)
  · intro k
    refine ⟨class_average (trim_position E primitive cell symprec) cell.size
        (trim_tol primitive cell symprec) (trim_ratio primitive cell) i k,
      E.mat_Nint (class_average (trim_position E primitive cell symprec) cell.size
        (trim_tol primitive cell symprec) (trim_ratio primitive cell) i k - symprec), ?_, ?_⟩
    · show (trim_state E primitive cell symprec cell.size.toNat).position
        (trim_state E primitive cell symprec i).count k = _
      unfold trim_state
      rw [hposn]
      rfl
    · unfold class_average
      have hcast : ((trim_ratio primitive cell : Int) : ℚ)
          = (((trim_ratio primitive cell).toNat : Nat) : ℚ) := by
        have : ((trim_ratio primitive cell).toNat : Int) = trim_ratio primitive cell :=
          Int.toNat_of_nonneg (by omega)
        exact_mod_cast this.symm
      rw [hcast]
      apply average_near _ _ _ _ hpos1
      intro j hj
      have hjm := hmem j hj
      have hax := (is_overlap_eq_one_iff _ _ _).mp (hov _ hjm) k
      exact boundary_term_near _ _ _ k _ hτ (hrange _ h0mem k).1 (hrange _ h0mem k).2
        (hrange _ hjm k).1 (hrange _ hjm k).2 hax

/-- Witness of C18 on `wrap_cell` at `ε = 1/10` (`τ = 1/5`): the two atoms, at
`-2/5` and `9/20`, lie on either side of the cell boundary; the emitted
coordinate is `21/40 = -19/40 + 1`, and `-19/40` is within `τ` of `-2/5`. -/
theorem trim_cell_average_witness :
    wrap_primitive.size ≠ 0 ∧
    trim_tol wrap_primitive wrap_cell (1 / 10) ≤ 1 / 2 ∧
    1 ≤ trim_ratio wrap_primitive wrap_cell ∧
    (trim_state bcc_deps wrap_primitive wrap_cell (1 / 10) 0).count = 0 ∧
    (trim_state bcc_deps wrap_primitive wrap_cell (1 / 10) 2).position 0 0 = 21 / 40 ∧
    ∃ out err, trim_cell bcc_deps wrap_primitive wrap_cell (1 / 10) = some (out, err) ∧
      ∀ k : Fin 3, ∃ (a : ℚ) (n : Int),
        out.position (trim_state bcc_deps wrap_primitive wrap_cell (1 / 10) 0).count k
          = a - (n : ℚ) ∧
        |a - trim_position bcc_deps wrap_primitive wrap_cell (1 / 10)
            (table_entry (trim_position bcc_deps wrap_primitive wrap_cell (1 / 10))
              wrap_cell.size (trim_tol wrap_primitive wrap_cell (1 / 10)) 0 0) k|
          < trim_tol wrap_primitive wrap_cell (1 / 10) := by
  obtain ⟨out, err, h1, _, _, h4⟩ :=
    trim_cell_average bcc_deps wrap_primitive wrap_cell (1 / 10) 0 (by decide) (by decide)
      (by decide!) (by decide!) (by decide!) (by decide!) (by decide!) (by decide!)
  exact ⟨by decide, by decide!, by decide!, by decide!, by decide!, out, err, h1, h4⟩

/-! ## One atom per overlap class -/

theorem mem_overlap_row (position : Arr (Vec3 ℚ)) (size : Int) (tol : ℚ) (i x : Nat) :
    x ∈ overlap_row position size tol i ↔ x < size.toNat ∧ overlaps position tol i x := by
  unfold overlap_row overlaps
  rw [List.mem_filter, List.mem_range, decide_eq_true_eq]

theorem map_getD_range (l : List Nat) :
    (List.range l.length).map (fun c => l.getD c 0) = l := by
  apply List.ext_getElem
  · simp
  · intro n h1 h2
    rw [List.getElem_map, List.getElem_range, List.getD_eq_getElem _ _ h2]

/-- When row `i` of the overlap table has `ratio` entries, the members of the
class opened by atom `i` are the atoms of that row. -/
theorem class_members_eq_row (position : Arr (Vec3 ℚ)) (size : Int) (tol : ℚ) (ratio : Int)
    (i : Nat) (h : ((overlap_row position size tol i).length : Int) = ratio) :
    class_members position size tol ratio i = overlap_row position size tol i := by
  unfold class_members
  have hlen : ratio.toNat = (overlap_row position size tol i).length := by omega
  rw [hlen]
  exact map_getD_range _

/-- Under the hypothesis of equal classes, an atom is marked as consumed after
`n` passes exactly when it overlaps an atom below `n`. -/
theorem trim_pass_checked (E : Deps) (cell : Cell) (position : Arr (Vec3 ℚ)) (tol symprec : ℚ)
    (ratio : Int) (st0 : TrimState) (h0 : st0.check_table = fun _ => 0)
    (hc : overlap_classes position cell.size tol ratio) (n : Nat) (hn : n ≤ cell.size.toNat) :
    ∀ x, x < cell.size.toNat →
      ((trim_pass E cell position tol symprec ratio st0 n).check_table x ≠ 0 ↔
        ∃ r, r < n ∧ overlaps position tol r x) := by
  obtain ⟨_, _, htrans, hsize⟩ := hc
  induction n with
  | zero =>
    intro x _
    rw [trim_pass_zero, h0]
    simp
  | succ n ih =>
    intro x hx
    have ih' := ih (by omega)
    have hnN : n < cell.size.toNat := by omega
    rw [trim_pass_succ]
    by_cases h : (trim_pass E cell position tol symprec ratio st0 n).check_table n = 0
    · obtain ⟨_, _, _, h4⟩ := trim_atom_open E cell position tol symprec ratio n _ h
      rw [h4, class_members_eq_row _ _ _ _ _ (hsize n hnN)]
      simp only [mem_overlap_row]
      constructor
      · intro hne
        by_cases hm : x < cell.size.toNat ∧ overlaps position tol n x
        · exact ⟨n, Nat.lt_succ_self n, hm.2⟩
        · rw [if_neg hm] at hne
          obtain ⟨r, hr, hrx⟩ := (ih' x hx).mp hne
          exact ⟨r, Nat.lt_succ_of_lt hr, hrx⟩
      · rintro ⟨r, hr, hrx⟩
        by_cases hm : x < cell.size.toNat ∧ overlaps position tol n x
        · rw [if_pos hm]
          exact one_ne_zero
        · rw [if_neg hm]
          have hrn : r < n := by
            rcases Nat.lt_succ_iff_lt_or_eq.mp hr with hlt | heq
            · exact hlt
            · exact absurd ⟨hx, heq ▸ hrx⟩ hm
          exact (ih' x hx).mpr ⟨r, hrn, hrx⟩
    · rw [trim_atom_skip E cell position tol symprec ratio n _ h]
      obtain ⟨r0, hr0, hr0n⟩ := (ih' n hnN).mp h
      constructor
      · intro hne
        obtain ⟨r, hr, hrx⟩ := (ih' x hx).mp hne
        exact ⟨r, Nat.lt_succ_of_lt hr, hrx⟩
      · rintro ⟨r, hr, hrx⟩
        rcases Nat.lt_succ_iff_lt_or_eq.mp hr with hlt | heq
        · exact (ih' x hx).mpr ⟨r, hlt, hrx⟩
        · rw [heq] at hrx
          exact (ih' x hx).mpr ⟨r0, hr0,
            htrans r0 (by omega) n hnN x hx hr0n hrx⟩

/-- The first element of a filtered range is its lowest element that passes. -/
theorem head_filter_range (p : Nat → Bool) (N i : Nat) :
    ((List.range N).filter p).head? = some i ↔
      i < N ∧ p i = true ∧ ∀ j, j < i → p j = false := by
  have hsorted : ((List.range N).filter p).Pairwise (· < ·) :=
    (List.pairwise_lt_range N).filter _
  constructor
  · intro h
    cases hl : (List.range N).filter p with
    | nil => rw [hl] at h; simp at h
    | cons a t =>
      rw [hl] at h hsorted
      simp only [List.head?_cons, Option.some.injEq] at h
      subst h
      have hmem : a ∈ (List.range N).filter p := by rw [hl]; exact List.mem_cons_self _ _
      rw [List.mem_filter, List.mem_range] at hmem
      refine ⟨hmem.1, hmem.2, ?_⟩
      intro j hj
      by_contra hc
      have hpj : p j = true := by simpa using hc
      have hjm : j ∈ (List.range N).filter p := by
        rw [List.mem_filter, List.mem_range]
        exact ⟨by omega, hpj⟩
      rw [hl] at hjm
      rcases List.mem_cons.mp hjm with he | ht
      · omega
      · have := (List.pairwise_cons.mp hsorted).1 j ht
        omega
  · rintro ⟨hi, hp, hlow⟩
    have hmem : i ∈ (List.range N).filter p := by
      rw [List.mem_filter, List.mem_range]
      exact ⟨hi, hp⟩
    cases hl : (List.range N).filter p with
    | nil => rw [hl] at hmem; simp at hmem
    | cons a t =>
      rw [hl] at hmem hsorted
      have ha : a ∈ (List.range N).filter p := by rw [hl]; exact List.mem_cons_self _ _
      rw [List.mem_filter, List.mem_range] at ha
      simp only [List.head?_cons, Option.some.injEq]
      rcases List.mem_cons.mp hmem with he | ht
      · exact he.symm
      · have hlt := (List.pairwise_cons.mp hsorted).1 i ht
        have := hlow a hlt
        rw [ha.2] at this
        exact absurd this (by decide)

/-- Under the hypothesis of equal classes, the pass for atom `i` finds it not yet
consumed exactly when `i` is the lowest atom of its row. -/
theorem opener_iff_first (E : Deps) (cell : Cell) (position : Arr (Vec3 ℚ)) (tol symprec : ℚ)
    (ratio : Int) (st0 : TrimState) (h0 : st0.check_table = fun _ => 0)
    (hc : overlap_classes position cell.size tol ratio) (i : Nat) (hi : i < cell.size.toNat) :
    (trim_pass E cell position tol symprec ratio st0 i).check_table i = 0 ↔
      (overlap_row position cell.size tol i).head? = some i := by
  have hchk := trim_pass_checked E cell position tol symprec ratio st0 h0 hc i (le_of_lt hi) i hi
  obtain ⟨hrefl, hsymm, _, _⟩ := hc
  unfold overlap_row
  rw [head_filter_range]
  constructor
  · intro h
    refine ⟨hi, by simpa [overlaps] using hrefl i hi, ?_⟩
    intro j hj
    by_contra hcon
    have hov : overlaps position tol i j := by simpa [overlaps] using hcon
    have := hchk.mpr ⟨j, hj, hsymm i hi j (by omega) hov⟩
    exact this h
  · rintro ⟨_, _, hlow⟩
    by_contra hne
    obtain ⟨r, hr, hri⟩ := hchk.mp hne
    have hir := hsymm r (by omega) i hi hri
    have := hlow r hr
    simp only [decide_eq_false_iff_not, not_not] at this
    exact hir this

theorem filter_or_length (l : List Nat) (p q : Nat → Bool)
    (h : ∀ x ∈ l, ¬ (p x = true ∧ q x = true)) :
    (l.filter fun x => p x || q x).length = (l.filter p).length + (l.filter q).length := by
  induction l with
  | nil => simp
  | cons a t ih =>
    have ih' := ih (fun x hx => h x (List.mem_cons_of_mem _ hx))
    have ha := h a (List.mem_cons_self _ _)
    cases hp : p a <;> cases hq : q a
    · simp [List.filter_cons, hp, hq, ih']
    · simp [List.filter_cons, hp, hq, ih']
      omega
    · simp [List.filter_cons, hp, hq, ih']
      omega
    · exact absurd ⟨hp, hq⟩ ha

/-- Under the hypothesis of equal classes, after `n` passes the number of atoms
marked as consumed is `ratio` times the number of atoms emitted. -/
theorem checked_count (E : Deps) (cell : Cell) (position : Arr (Vec3 ℚ)) (tol symprec : ℚ)
    (ratio : Int) (st0 : TrimState) (h0 : st0.check_table = fun _ => 0)
    (hc : overlap_classes position cell.size tol ratio) (n : Nat) (hn : n ≤ cell.size.toNat) :
    ((List.range cell.size.toNat).filter fun x =>
        decide ((trim_pass E cell position tol symprec ratio st0 n).check_table x ≠ 0)).length
      = (pass_openers E cell position tol symprec ratio st0 n).length * ratio.toNat := by
  induction n with
  | zero =>
    rw [trim_pass_zero, h0]
    simp [pass_openers]
  | succ n ih =>
    have ih' := ih (by omega)
    have hnN : n < cell.size.toNat := by omega
    have hchk := trim_pass_checked E cell position tol symprec ratio st0 h0 hc n (by omega)
    obtain ⟨_, hsymm, htrans, hsize⟩ := hc
    rw [pass_openers_succ, trim_pass_succ]
    by_cases h : (trim_pass E cell position tol symprec ratio st0 n).check_table n = 0
    · obtain ⟨_, _, _, h4⟩ := trim_atom_open E cell position tol symprec ratio n _ h
      rw [h4, class_members_eq_row _ _ _ _ _ (hsize n hnN), if_pos h, List.length_append,
        List.length_singleton, Nat.add_mul, Nat.one_mul, ← ih']
      have hcongr : ((List.range cell.size.toNat).filter fun x =>
            decide ((if x ∈ overlap_row position cell.size tol n then (1 : Int)
              else (trim_pass E cell position tol symprec ratio st0 n).check_table x) ≠ 0))
          = (List.range cell.size.toNat).filter fun x =>
            (decide ((trim_pass E cell position tol symprec ratio st0 n).check_table x ≠ 0)
              || decide (overlaps position tol n x)) := by
        apply List.filter_congr
        intro x hx
        have hxN := List.mem_range.mp hx
        by_cases hm : x ∈ overlap_row position cell.size tol n
        · have hov := ((mem_overlap_row _ _ _ _ _).mp hm).2
          simp [hm, hov]
        · have hov : ¬ overlaps position tol n x := fun hov =>
            hm ((mem_overlap_row _ _ _ _ _).mpr ⟨hxN, hov⟩)
          simp [hm, hov]
      rw [hcongr, filter_or_length]
      · congr 1
        have hrow : ((List.range cell.size.toNat).filter fun x =>
            decide (overlaps position tol n x)) = overlap_row position cell.size tol n := rfl
        rw [hrow]
        have := hsize n hnN
        omega
      · intro x hx hboth
        have hxN := List.mem_range.mp hx
        have h1 : (trim_pass E cell position tol symprec ratio st0 n).check_table x ≠ 0 := by
          simpa using hboth.1
        have h2 : overlaps position tol n x := by simpa using hboth.2
        obtain ⟨r, hr, hrx⟩ := (hchk x hxN).mp h1
        have hrn : overlaps position tol r n :=
          htrans r (by omega) x hxN n hnN hrx (hsymm n hnN x hxN h2)
        exact (hchk n hnN).mpr ⟨r, hr, hrn⟩ h
    · rw [trim_atom_skip E cell position tol symprec ratio n _ h, if_neg h, List.append_nil]
      exact ih'

/-- Under the hypothesis of equal classes, the atoms are `ratio` times as many as
the atoms emitted by the whole loop. -/
theorem openers_count (E : Deps) (cell : Cell) (position : Arr (Vec3 ℚ)) (tol symprec : ℚ)
    (ratio : Int) (st0 : TrimState) (h0 : st0.check_table = fun _ => 0)
    (hc : overlap_classes position cell.size tol ratio) :
    cell.size.toNat
      = (pass_openers E cell position tol symprec ratio st0 cell.size.toNat).length
          * ratio.toNat := by
  have hcount := checked_count E cell position tol symprec ratio st0 h0 hc cell.size.toNat le_rfl
  have hchk := trim_pass_checked E cell position tol symprec ratio st0 h0 hc cell.size.toNat
    le_rfl
  rw [← hcount]
  have hall : ((List.range cell.size.toNat).filter fun x =>
      decide ((trim_pass E cell position tol symprec ratio st0 cell.size.toNat).check_table x
        ≠ 0)) = List.range cell.size.toNat := by
    rw [List.filter_eq_self]
    intro x hx
    have hxN := List.mem_range.mp hx
    have := (hchk x hxN).mpr ⟨x, hxN, hc.1 x hxN⟩
    simpa using this
  rw [hall, List.length_range]

/-- Under the hypothesis of equal classes, every atom lies in the row of exactly
one atom that is the lowest of its row. -/
theorem class_of_atom_unique (position : Arr (Vec3 ℚ)) (size : Int) (tol : ℚ) (m : Int)
    (hc : overlap_classes position size tol m) (j : Nat) (hj : j < size.toNat) :
    ∃! r, r ∈ class_firsts position size tol ∧ j ∈ overlap_row position size tol r := by
  obtain ⟨hrefl, hsymm, htrans, _⟩ := hc
  have hex : ∃ x, x < size.toNat ∧ overlaps position tol x j := ⟨j, hj, hrefl j hj⟩
  have hfirst : ∀ r, r ∈ class_firsts position size tol ↔
      r < size.toNat ∧ overlaps position tol r r ∧ ∀ x, x < r → ¬ overlaps position tol r x := by
    intro r
    unfold class_firsts
    rw [List.mem_filter, List.mem_range, decide_eq_true_eq]
    unfold overlap_row
    rw [head_filter_range]
    constructor
    · rintro ⟨h1, _, h2, h3⟩
      refine ⟨h1, by simpa [overlaps] using h2, fun x hx => ?_⟩
      have := h3 x hx
      simpa [overlaps] using this
    · rintro ⟨h1, h2, h3⟩
      refine ⟨h1, h1, by simpa [overlaps] using h2, fun x hx => ?_⟩
      have := h3 x hx
      simpa [overlaps] using this
  have hr := Nat.find_spec hex
  have hmin := fun x => Nat.find_min (H := hex) (m := x)
  refine ⟨Nat.find hex, ⟨(hfirst _).mpr ⟨hr.1, hrefl _ hr.1, ?_⟩,
    (mem_overlap_row _ _ _ _ _).mpr ⟨hj, hr.2⟩⟩, ?_⟩
  · intro x hx hov
    have hxN : x < size.toNat := by omega
    exact hmin x hx ⟨hxN, htrans x hxN _ hr.1 j hj (hsymm _ hr.1 x hxN hov) hr.2⟩
  · rintro r' ⟨hr'f, hr'j⟩
    obtain ⟨hr'N, _, hr'low⟩ := (hfirst r').mp hr'f
    have hr'ov := ((mem_overlap_row _ _ _ _ _).mp hr'j).2
    rcases Nat.lt_trichotomy r' (Nat.find hex) with hlt | heq | hgt
    · exact absurd ⟨hr'N, hr'ov⟩ (hmin r' hlt)
    · exact heq
    · exfalso
      have h1 : overlaps position tol r' (Nat.find hex) :=
        htrans r' hr'N j hj _ hr.1 hr'ov (hsymm _ hr.1 j hj hr.2)
      exact hr'low _ hgt h1

/-- C14: `trim_cell` emits one atom per overlap class.  For a cell of `N` atoms
and a primitive cell of size `N / m` (`N = m · size`, `m > 0`, size `> 0`), if
the overlap test at tolerance `ε·m` on the reduced positions is an equivalence
relation all of whose classes have exactly `m` members, then `trim_cell` prints
no diagnostic and writes exactly `N / m` atoms; the `c`-th written atom has the
species of the lowest atom of the `c`-th class, in increasing order of the
classes' lowest atoms, and the reduced average of that class as its position;
nothing is written at index `N / m` or above; and every input atom lies in
exactly one class. -/
theorem trim_cell_one_per_class (E : Deps) (primitive cell : Cell) (symprec : ℚ) (m : Int)
    (hm : 0 < m) (hP : 0 < primitive.size) (hN : cell.size = m * primitive.size)
    (hc : overlap_classes (trim_position E primitive cell symprec) cell.size
      (symprec * (m : ℚ)) m) :
    trim_ratio primitive cell = m ∧
    trim_tol primitive cell symprec = symprec * (m : ℚ) ∧
    ∃ out, trim_cell E primitive cell symprec = some (out, []) ∧
      ((trim_state E primitive cell symprec cell.size.toNat).count : Int) = cell.size / m ∧
      ((class_firsts (trim_position E primitive cell symprec) cell.size
        (symprec * (m : ℚ))).length : Int) = cell.size / m ∧
      (class_firsts (trim_position E primitive cell symprec) cell.size
        (symprec * (m : ℚ))).Pairwise (· < ·) ∧
      (∀ c, c < (class_firsts (trim_position E primitive cell symprec) cell.size
          (symprec * (m : ℚ))).length →
        out.types c = cell.types
          ((class_firsts (trim_position E primitive cell symprec) cell.size
            (symprec * (m : ℚ))).getD c 0) ∧
        out.position c = class_position E (trim_position E primitive cell symprec) cell.size
          (symprec * (m : ℚ)) symprec m
          ((class_firsts (trim_position E primitive cell symprec) cell.size
            (symprec * (m : ℚ))).getD c 0)) ∧
      (∀ c, (class_firsts (trim_position E primitive cell symprec) cell.size
          (symprec * (m : ℚ))).length ≤ c →
        out.types c = primitive.types c ∧ out.position c = primitive.position c) ∧
      (∀ j, j < cell.size.toNat →
        ∃! r, r ∈ class_firsts (trim_position E primitive cell symprec) cell.size
            (symprec * (m : ℚ)) ∧
          j ∈ overlap_row (trim_position E primitive cell symprec) cell.size
            (symprec * (m : ℚ)) r) := by
  have hratio : trim_ratio primitive cell = m := by
    unfold trim_ratio
    rw [hN]
    exact Int.mul_tdiv_cancel m (ne_of_gt hP)
  have htol : trim_tol primitive cell symprec = symprec * (m : ℚ) := by
    unfold trim_tol
    rw [hratio]
  have hpass : ∀ n, trim_state E primitive cell symprec n
      = trim_pass E cell (trim_position E primitive cell symprec) (symprec * (m : ℚ)) symprec m
          { position := primitive.position, types := primitive.types,
            check_table := fun _ => 0, count := 0 } n := by
    intro n
    unfold trim_state
    rw [htol, hratio]
  have hopen : pass_openers E cell (trim_position E primitive cell symprec) (symprec * (m : ℚ))
      symprec m
      { position := primitive.position, types := primitive.types,
        check_table := fun _ => 0, count := 0 } cell.size.toNat
      = class_firsts (trim_position E primitive cell symprec) cell.size (symprec * (m : ℚ)) := by
    unfold pass_openers class_firsts
    apply List.filter_congr
    intro i hi
    exact decide_eq_decide.mpr (opener_iff_first E cell _ _ symprec m _ rfl hc i
      (List.mem_range.mp hi))
  have hcount := trim_pass_count E cell (trim_position E primitive cell symprec)
    (symprec * (m : ℚ)) symprec m
    { position := primitive.position, types := primitive.types,
      check_table := fun _ => 0, count := 0 } cell.size.toNat
  rw [hopen] at hcount
  simp only [Nat.zero_add] at hcount
  have hNN := openers_count E cell (trim_position E primitive cell symprec)
    (symprec * (m : ℚ)) symprec m
    { position := primitive.position, types := primitive.types,
      check_table := fun _ => 0, count := 0 } rfl hc
  rw [hopen] at hNN
  have hdiv : cell.size / m = primitive.size := by
    rw [hN]
    exact Int.mul_ediv_cancel_left _ (ne_of_gt hm)
  have hlen : ((class_firsts (trim_position E primitive cell symprec) cell.size
      (symprec * (m : ℚ))).length : Int) = primitive.size := by
    have h1 : ((cell.size.toNat : Nat) : Int) = cell.size := by
      have : 0 ≤ cell.size := by rw [hN]; positivity
      omega
    have h2 : ((m.toNat : Nat) : Int) = m := by omega
    have h3 : ((cell.size.toNat : Nat) : Int)
        = ((class_firsts (trim_position E primitive cell symprec) cell.size
            (symprec * (m : ℚ))).length : Int) * ((m.toNat : Nat) : Int) := by
      exact_mod_cast hNN
    rw [h1, h2] at h3
    have h4 : m * primitive.size
        = m * ((class_firsts (trim_position E primitive cell symprec) cell.size
            (symprec * (m : ℚ))).length : Int) :=
      hN.symm.trans (h3.trans (Int.mul_comm _ _))
    exact (Int.eq_of_mul_eq_mul_left (ne_of_gt hm) h4).symm
  have hdiag : trim_diagnostics E primitive cell symprec = [] := by
    unfold trim_diagnostics
    rw [hpass, hcount, htol, hratio]
    have hfirst : overlap_diagnostics (trim_position E primitive cell symprec) cell.size
        (symprec * (m : ℚ)) m = [] := by
      unfold overlap_diagnostics
      rw [List.flatMap_eq_nil_iff]
      intro i hi
      rw [if_neg (not_not.mpr (hc.2.2.2 i (List.mem_range.mp hi)))]
    rw [hfirst, if_neg (not_not.mpr hlen)]
    rfl
  have heq := trim_cell_eq E primitive cell symprec (ne_of_gt hP)
  rw [hdiag] at heq
  refine ⟨hratio, htol, _, heq, ?_, ?_, ?_, ?_, ?_, ?_⟩
  · rw [hpass, hcount, hlen, hdiv]
  · rw [hlen, hdiv]
  · unfold class_firsts
    exact (List.pairwise_lt_range _).filter _
  · intro c hc'
    have := trim_pass_emitted_by E cell (trim_position E primitive cell symprec)
      (symprec * (m : ℚ)) symprec m
      { position := primitive.position, types := primitive.types,
        check_table := fun _ => 0, count := 0 } rfl cell.size.toNat c (by rw [hopen]; exact hc')
    rw [hopen] at this
    simp only [hpass]
    exact this
  · intro c hc'
    have := trim_pass_frame E cell (trim_position E primitive cell symprec)
      (symprec * (m : ℚ)) symprec m
      { position := primitive.position, types := primitive.types,
        check_table := fun _ => 0, count := 0 } cell.size.toNat c (by rw [hcount]; exact hc')
    simp only [hpass]
    exact this
  · intro j hj
    exact class_of_atom_unique _ _ _ m hc j hj

/-- Witness of C14 on `wrap_cell` at `ε = 1/10`: two atoms in one class of two
members, one atom written. -/
theorem trim_cell_one_per_class_witness :
    (0 : Int) < 2 ∧ 0 < wrap_primitive.size ∧ wrap_cell.size = 2 * wrap_primitive.size ∧
    overlap_classes (trim_position bcc_deps wrap_primitive wrap_cell (1 / 10)) wrap_cell.size
      (1 / 10 * ((2 : Int) : ℚ)) 2 ∧
    class_firsts (trim_position bcc_deps wrap_primitive wrap_cell (1 / 10)) wrap_cell.size
      (1 / 10 * ((2 : Int) : ℚ)) = [0] ∧
    ∃ out, trim_cell bcc_deps wrap_primitive wrap_cell (1 / 10) = some (out, []) ∧
      ((trim_state bcc_deps wrap_primitive wrap_cell (1 / 10) wrap_cell.size.toNat).count : Int)
        = wrap_cell.size / 2 := by
  obtain ⟨_, _, out, h1, h2, _⟩ :=
    trim_cell_one_per_class bcc_deps wrap_primitive wrap_cell (1 / 10) 2 (by decide) (by decide)
      (by decide) (by decide!)
  exact ⟨by decide, by decide, by decide, by decide!, by decide!, out, h1, h2⟩

end Spglib
